import Mathlib

/-!
# analogReadMillivolts for ESP32-C3 and ESP32-S2

A shallow embedding of `esp32-c3/analog.{h,cpp}` and `esp32-s2/analog.{h,cpp}`.

The two source trees are the same program up to three constants (ADC width,
fallback divisor, channel count) and the pin table, so the embedding takes the
chip as a parameter `Variant`.

The global arrays `adc1_cal_data` / `adc1_cal_initialized` and the C heap are an
explicit `State`.  Every call into the ESP-IDF driver, the allocator or the
logger is recorded in a trace of `Event`s, in program order.  What the driver
answers is input of the call: the status of `adc1_config_channel_atten` and the
successive values of `adc1_get_raw` come from `Responses`; the calibration
primitives are the two functions of `Driver`.
-/

namespace AnalogReadMillis

/-! ## Machine integers -/

/-- Value of a C `int` (32-bit two's complement) holding `x` modulo `2^32`. -/
def to_int32 (x : Int) : Int := (x + 2 ^ 31) % 2 ^ 32 - 2 ^ 31

/-- Value of a C `long long` (64-bit two's complement) holding `x` modulo `2^64`. -/
def to_int64 (x : Int) : Int := (x + 2 ^ 63) % 2 ^ 64 - 2 ^ 63

/-- Value of a C `uint32_t` holding `x` modulo `2^32`. -/
def to_uint32 (x : Int) : Nat := (x % 2 ^ 32).toNat

/-! ## Driver types -/

/-- The two chips; `src/esp32-c3` and `src/esp32-s2`. -/
inductive Variant where
  | esp32_c3
  | esp32_s2
  deriving DecidableEq, Repr

/-- Attenuation settings, as listed in the documentation of `analogReadMillivolts` in
`analog.h`; the driver numbers them 0, 1, 2, 3 in this order, so the zero-initialised
`current_atten` of a global is `ADC_ATTEN_DB_0`. -/
inductive adc_atten_t where
  | ADC_ATTEN_DB_0
  | ADC_ATTEN_DB_2_5
  | ADC_ATTEN_DB_6
  | ADC_ATTEN_DB_11
  deriving DecidableEq, Repr

/-- The two ADC widths the sources pass to the driver. -/
inductive adc_bits_width_t where
  | ADC_WIDTH_BIT_12
  | ADC_WIDTH_BIT_13
  deriving DecidableEq, Repr

/-- ADC units of the driver; the sources only ever name `ADC_UNIT_1`. -/
inductive adc_unit_t where
  | ADC_UNIT_1
  | ADC_UNIT_2
  deriving DecidableEq, Repr

/-- Number of bits of a width: 12 or 13. -/
def adc_bits_width_t.bits : adc_bits_width_t → Nat
  | .ADC_WIDTH_BIT_12 => 12
  | .ADC_WIDTH_BIT_13 => 13

/-- Status `ESP_OK` of the driver (`esp_err_t` value 0). -/
def ESP_OK : Int := 0

/-! ## Per-variant constants (`analog.h`) -/

/-- Macro `ADC1_CHANNEL_COUNT`: 6 on the C3 (analog.h:16), 10 on the S2 (analog.h:16). -/
def ADC1_CHANNEL_COUNT : Variant → Nat
  | .esp32_c3 => 6
  | .esp32_s2 => 10

/-- Width passed to `adc1_config_width` and `esp_adc_cal_characterize`:
`ADC_WIDTH_BIT_12` on the C3, `ADC_WIDTH_BIT_13` on the S2 (analog.cpp:15, 29). -/
def ADC_WIDTH : Variant → adc_bits_width_t
  | .esp32_c3 => .ADC_WIDTH_BIT_12
  | .esp32_s2 => .ADC_WIDTH_BIT_13

/-- Divisor of the fallback formula: 4095 on the C3, 8191 on the S2 (analog.cpp:53). -/
def FALLBACK_MAX_RAW : Variant → Int
  | .esp32_c3 => 4095
  | .esp32_s2 => 8191

/-- Function `get_adc1_channel` (esp32-c3/analog.h:22-32, esp32-s2/analog.h:30-41), with
`ADC1_CHANNEL_k = k` as in the driver header. -/
def get_adc1_channel : Variant → Int → Int
  | .esp32_c3, pin =>
    if pin = 0 then 0
    else if pin = 1 then 1
    else if pin = 2 then 2
    else if pin = 3 then 3
    else if pin = 4 then 4
    else if pin = 5 then 5
    else -1
  | .esp32_s2, pin =>
    if pin = 4 then 1
    else if pin = 5 then 2
    else if pin = 6 then 3
    else if pin = 7 then 4
    else if pin = 8 then 5
    else if pin = 9 then 6
    else if pin = 10 then 7
    else -1

/-- The mapped pin set of a variant, in the words of the spec: 0..5 on the C3, 4..10 on the S2. -/
def valid_pin : Variant → Int → Prop
  | .esp32_c3, pin => 0 ≤ pin ∧ pin ≤ 5
  | .esp32_s2, pin => 4 ≤ pin ∧ pin ≤ 10

instance (v : Variant) (pin : Int) : Decidable (valid_pin v pin) := by
  cases v <;> unfold valid_pin <;> infer_instance

/-! ## State: the two global arrays and the heap -/

/-- Structure `adc_calibration_data_t` (analog.h:9-12).  A pointer is `none` for `NULL`, or the
identifier of the heap block returned by `malloc`. -/
structure adc_calibration_data_t where
  adc_chars : Option Nat
  current_atten : adc_atten_t
  deriving DecidableEq, Repr

/-- Program state.  `adc1_cal_data` and `adc1_cal_initialized` are the global arrays
(analog.cpp:4-5), as functions of the index.  The heap is a family of blocks named
by allocation order: `heap_next` blocks were allocated so far, `heap_live b` tells
whether block `b` is allocated and not freed, `heap_content b` is what
`esp_adc_cal_characterize` wrote into it (`none` while unwritten). -/
structure State (Chars : Type) where
  adc1_cal_data : Int → adc_calibration_data_t
  adc1_cal_initialized : Int → Bool
  heap_next : Nat
  heap_live : Nat → Bool
  heap_content : Nat → Option Chars

/-- State at process start: zero-initialised globals (analog.cpp:4-5), empty heap. -/
def State.init (Chars : Type) : State Chars where
  adc1_cal_data := fun _ => { adc_chars := none, current_atten := .ADC_ATTEN_DB_0 }
  adc1_cal_initialized := fun _ => false
  heap_next := 0
  heap_live := fun _ => false
  heap_content := fun _ => none

/-- What a pointer points to: the characteristics written in a live block, `none` for
`NULL`, a freed block or an unwritten one. -/
def State.deref {Chars : Type} (s : State Chars) : Option Nat → Option Chars
  | none => none
  | some b => if s.heap_live b then s.heap_content b else none

/-! ## The outside world -/

/-- The calibration primitives of `esp_adc_cal.h`.
`esp_adc_cal_characterize unit atten width vref` is what the primitive writes into the
block it is given; `esp_adc_cal_raw_to_voltage raw chars` is the `uint32_t` it returns
for the `uint32_t` reading `raw` and the contents `chars` of the block passed. -/
structure Driver (Chars : Type) where
  esp_adc_cal_characterize : adc_unit_t → adc_atten_t → adc_bits_width_t → Nat → Chars
  esp_adc_cal_raw_to_voltage : Nat → Option Chars → Nat

/-- What the ADC driver answers during one call of `analogReadMillivolts`:
the `esp_err_t` returned by `adc1_config_channel_atten`, and the `int` returned by the
`i`-th call of `adc1_get_raw` (counted from 0). -/
structure Responses where
  adc1_config_channel_atten : Int
  adc1_get_raw : Nat → Int

/-- Calls leaving `analogReadMillivolts`, with their arguments. -/
inductive Event where
  | log_e_invalid_pin (pin : Int)
  | log_e_config (pin : Int) (err : Int)
  | log_w (pin : Int)
  | adc1_config_width (width : adc_bits_width_t)
  | adc1_config_channel_atten (chan : Int) (atten : adc_atten_t)
  | free (blk : Nat)
  | malloc (blk : Nat)
  | esp_adc_cal_characterize (unit : adc_unit_t) (atten : adc_atten_t)
      (width : adc_bits_width_t) (vref : Nat) (chars : Option Nat)
  | adc1_get_raw (chan : Int)
  | esp_adc_cal_raw_to_voltage (raw : Nat) (chars : Option Nat)
  deriving DecidableEq, Repr

/-- Calls into the ADC driver or the calibration library (everything but logging and
the allocator). -/
def Event.is_driver_call : Event → Bool
  | .adc1_config_width _ => true
  | .adc1_config_channel_atten _ _ => true
  | .esp_adc_cal_characterize _ _ _ _ _ => true
  | .adc1_get_raw _ => true
  | .esp_adc_cal_raw_to_voltage _ _ => true
  | _ => false

/-- Calls of the characterization primitive. -/
def Event.is_characterize : Event → Bool
  | .esp_adc_cal_characterize _ _ _ _ _ => true
  | _ => false

/-- Calls of `free`. -/
def Event.is_free : Event → Bool
  | .free _ => true
  | _ => false

/-- Calls of `malloc`. -/
def Event.is_malloc : Event → Bool
  | .malloc _ => true
  | _ => false

/-- Calls of `adc1_get_raw`. -/
def Event.is_get_raw : Event → Bool
  | .adc1_get_raw _ => true
  | _ => false

/-- Calls of `esp_adc_cal_raw_to_voltage`. -/
def Event.is_raw_to_voltage : Event → Bool
  | .esp_adc_cal_raw_to_voltage _ _ => true
  | _ => false

/-! ## analogReadMillivolts -/

/-- True when the test of analog.cpp:23 holds:
`!adc1_cal_initialized[chan] || adc1_cal_data[chan].current_atten != attenuation`. -/
def needs_refresh {Chars : Type} (s : State Chars) (chan : Int) (attenuation : adc_atten_t) : Bool :=
  !s.adc1_cal_initialized chan || decide ((s.adc1_cal_data chan).current_atten ≠ attenuation)

/-- Lines 24-26: `if (adc_chars != NULL) free(adc_chars);`. -/
def release_chars {Chars : Type} (s : State Chars) (chan : Int) : State Chars × List Event :=
  match (s.adc1_cal_data chan).adc_chars with
  | some b => ({ s with heap_live := Function.update s.heap_live b false }, [Event.free b])
  | none => (s, [])

/-- Lines 27-31: `malloc` a block (a fresh one, `malloc` taken as never failing, as the
source does), have `esp_adc_cal_characterize` fill it, record the attenuation, set the flag. -/
def acquire_chars {Chars : Type} (v : Variant) (drv : Driver Chars) (s : State Chars)
    (chan : Int) (attenuation : adc_atten_t) : State Chars × List Event :=
  let b := s.heap_next
  ({ adc1_cal_data :=
       Function.update s.adc1_cal_data chan { adc_chars := some b, current_atten := attenuation },
     adc1_cal_initialized := Function.update s.adc1_cal_initialized chan true,
     heap_next := b + 1,
     heap_live := Function.update s.heap_live b true,
     heap_content := Function.update s.heap_content b
       (some (drv.esp_adc_cal_characterize .ADC_UNIT_1 attenuation (ADC_WIDTH v) 3300)) },
   [Event.malloc b,
    Event.esp_adc_cal_characterize .ADC_UNIT_1 attenuation (ADC_WIDTH v) 3300 (some b)])

/-- Lines 22-32 of analog.cpp: refresh the cache entry of `chan` when needed. -/
def calibrate {Chars : Type} (v : Variant) (drv : Driver Chars) (s : State Chars)
    (chan : Int) (attenuation : adc_atten_t) : State Chars × List Event :=
  if needs_refresh s chan attenuation then
    let r := release_chars s chan
    let a := acquire_chars v drv r.1 chan attenuation
    (a.1, r.2 ++ a.2)
  else
    (s, [])

/-- The loop of lines 37-41: `k` iterations left, `i` the loop counter, `sum` the
`long long` accumulator, `t` the calls made so far. -/
def oversample_loop (raws : Nat → Int) (chan : Int) : Nat → Nat → Int → List Event → Int × List Event
  | 0, _, sum, t => (sum, t)
  | k + 1, i, sum, t =>
    oversample_loop raws chan k (i + 1) (to_int64 (sum + raws i)) (t ++ [Event.adc1_get_raw chan])

/-- Lines 34-45 of analog.cpp: the value of `raw_adc` and the raw reads made. -/
def acquire_raw (env : Responses) (chan : Int) (oversampling : Int) : Int × List Event :=
  if oversampling > 1 then
    let r := oversample_loop env.adc1_get_raw chan oversampling.toNat 0 0 []
    (to_int32 (Int.tdiv r.1 oversampling), r.2)
  else
    (env.adc1_get_raw 0, [Event.adc1_get_raw chan])

/-- The fallback formula of analog.cpp:53, `(raw_adc * 3300) / 4095` on the C3 and
`(raw_adc * 3300) / 8191` on the S2, in `int` arithmetic: the product is kept modulo
`2^32`, the division truncates toward zero. -/
def fallback_millivolts (v : Variant) (raw_adc : Int) : Int :=
  Int.tdiv (to_int32 (raw_adc * 3300)) (FALLBACK_MAX_RAW v)

/-- Result of one call: the returned `int`, the state left behind, the calls made. -/
structure Outcome (Chars : Type) where
  ret : Int
  state : State Chars
  trace : List Event

/-- Function `analogReadMillivolts` (analog.cpp:7-55 of either variant). -/
def analogReadMillivolts {Chars : Type} (v : Variant) (drv : Driver Chars) (env : Responses)
    (s : State Chars) (pin : Int) (attenuation : adc_atten_t) (oversampling : Int) :
    Outcome Chars :=
  let adc1_chan := get_adc1_channel v pin
  if adc1_chan = -1 then
    { ret := -1, state := s, trace := [Event.log_e_invalid_pin pin] }
  else
    let t0 := [Event.adc1_config_width (ADC_WIDTH v),
               Event.adc1_config_channel_atten adc1_chan attenuation]
    let err := env.adc1_config_channel_atten
    if err ≠ ESP_OK then
      { ret := -1, state := s, trace := t0 ++ [Event.log_e_config pin err] }
    else
      let c := calibrate v drv s adc1_chan attenuation
      let r := acquire_raw env adc1_chan oversampling
      if c.1.adc1_cal_initialized adc1_chan then
        let chars := (c.1.adc1_cal_data adc1_chan).adc_chars
        let voltage : Nat :=
          drv.esp_adc_cal_raw_to_voltage (to_uint32 r.1) (c.1.deref chars) % 2 ^ 32
        { ret := to_int32 (voltage : Int),
          state := c.1,
          trace := t0 ++ c.2 ++ r.2 ++ [Event.esp_adc_cal_raw_to_voltage (to_uint32 r.1) chars] }
      else
        { ret := fallback_millivolts v r.1,
          state := c.1,
          trace := t0 ++ c.2 ++ r.2 ++ [Event.log_w pin] }

/-! ## Sequences of calls -/

/-- One call of `analogReadMillivolts` together with what the driver answers during it. -/
structure Call where
  pin : Int
  attenuation : adc_atten_t
  oversampling : Int
  env : Responses

/-- Outcome of a call made in state `s`. -/
def Call.exec {Chars : Type} (v : Variant) (drv : Driver Chars) (s : State Chars) (c : Call) :
    Outcome Chars :=
  analogReadMillivolts v drv c.env s c.pin c.attenuation c.oversampling

/-- State after a sequence of calls made one after the other from `s`. -/
def run {Chars : Type} (v : Variant) (drv : Driver Chars) (s : State Chars) :
    List Call → State Chars
  | [] => s
  | c :: cs => run v drv (c.exec v drv s).state cs

/-- All calls made during a sequence of calls from `s`, in order. -/
def run_trace {Chars : Type} (v : Variant) (drv : Driver Chars) (s : State Chars) :
    List Call → List Event
  | [] => []
  | c :: cs => (c.exec v drv s).trace ++ run_trace v drv (c.exec v drv s).state cs

/-- States the program can be in: those a sequence of calls leads to from process start. -/
def Reachable {Chars : Type} (v : Variant) (drv : Driver Chars) (s : State Chars) : Prop :=
  ∃ calls : List Call, s = run v drv (State.init Chars) calls

/-! ## Specification-side notions -/

/-- The call gets past pin resolution and driver configuration on channel `chan`
(it reaches line 22 of analog.cpp with `adc1_chan = chan`). -/
def Call.configures (v : Variant) (chan : Int) (c : Call) : Bool :=
  decide (get_adc1_channel v c.pin = chan) && decide (chan ≠ -1) &&
    decide (c.env.adc1_config_channel_atten = ESP_OK)

/-- The call asks for a read on channel `chan`, whatever becomes of it. -/
def Call.requests (v : Variant) (chan : Int) (c : Call) : Bool :=
  decide (get_adc1_channel v c.pin = chan) && decide (chan ≠ -1)

/-- Attenuation of the most recent call of the sequence that got past driver
configuration on `chan`; `last` when there is none. -/
def last_configured (v : Variant) (chan : Int) :
    Option adc_atten_t → List Call → Option adc_atten_t
  | last, [] => last
  | last, c :: cs =>
    last_configured v chan (if c.configures v chan then some c.attenuation else last) cs

/-- Attenuation of the most recent call of the sequence that requested a read on `chan`,
failed calls included; `last` when there is none. -/
def last_requested (v : Variant) (chan : Int) :
    Option adc_atten_t → List Call → Option adc_atten_t
  | last, [] => last
  | last, c :: cs =>
    last_requested v chan (if c.requests v chan then some c.attenuation else last) cs

/-- Calls of the characterization primitive for attenuation `a`. -/
def Event.characterizes (a : adc_atten_t) : Event → Bool
  | .esp_adc_cal_characterize _ atten _ _ _ => decide (atten = a)
  | _ => false

/-- Number of invocations of the characterization primitive for the pair (`chan`, `a`)
during a sequence of calls from `s`: those made, with attenuation `a`, by calls whose
pin resolves to `chan`. -/
def characterize_count {Chars : Type} (v : Variant) (drv : Driver Chars) (chan : Int)
    (a : adc_atten_t) : State Chars → List Call → Nat
  | _, [] => 0
  | s, c :: cs =>
    (if get_adc1_channel v c.pin = chan then
      (c.exec v drv s).trace.countP (Event.characterizes a) else 0)
      + characterize_count v drv chan a (c.exec v drv s).state cs

/-- Number of calls of the sequence that get past configuration on `chan` asking for
attenuation `a` while the previous such call on `chan` (`last` before the sequence)
did not ask for `a`. -/
def attenuation_switches (v : Variant) (chan : Int) (a : adc_atten_t) :
    Option adc_atten_t → List Call → Nat
  | _, [] => 0
  | last, c :: cs =>
    if c.configures v chan then
      (if c.attenuation = a ∧ last ≠ some a then 1 else 0)
        + attenuation_switches v chan a (some c.attenuation) cs
    else attenuation_switches v chan a last cs

/-- The floor of the exact mean of the first `n` raw reads. -/
def floor_average (raws : Nat → Int) (n : Nat) : Int :=
  ⌊((∑ i ∈ Finset.range n, raws i : Int) : ℚ) / (n : ℚ)⌋

/-- Cache invariant: an initialized entry holds a live block, allocated earlier, filled by
the characterization primitive for the stored attenuation; an uninitialized entry holds
`NULL`; no two entries hold the same block; every live block is held by an entry. -/
structure CacheInv {Chars : Type} (v : Variant) (drv : Driver Chars) (s : State Chars) : Prop where
  held : ∀ c, s.adc1_cal_initialized c = true →
    ∃ b, (s.adc1_cal_data c).adc_chars = some b ∧ b < s.heap_next ∧ s.heap_live b = true ∧
      s.heap_content b = some (drv.esp_adc_cal_characterize .ADC_UNIT_1
        (s.adc1_cal_data c).current_atten (ADC_WIDTH v) 3300)
  null : ∀ c, s.adc1_cal_initialized c = false → (s.adc1_cal_data c).adc_chars = none
  inj : ∀ c c2 b, (s.adc1_cal_data c).adc_chars = some b →
    (s.adc1_cal_data c2).adc_chars = some b → c = c2
  owned : ∀ b, s.heap_live b = true →
    b < s.heap_next ∧ ∃ c, (s.adc1_cal_data c).adc_chars = some b

/-- The entry of `chan` is initialized exactly when `last` is an attenuation, which is
then the stored one. -/
def Tracks {Chars : Type} (s : State Chars) (chan : Int) (last : Option adc_atten_t) : Prop :=
  (s.adc1_cal_initialized chan = last.isSome) ∧
    ∀ a, last = some a → (s.adc1_cal_data chan).current_atten = a

/-- Heap liveness after lines 24-26. -/
def released_live {Chars : Type} (s : State Chars) (chan : Int) : Nat → Bool :=
  match (s.adc1_cal_data chan).adc_chars with
  | some b => Function.update s.heap_live b false
  | none => s.heap_live

/-! ## Example inputs -/

/-- A driver whose conversion is the identity on the raw reading. -/
def identity_driver : Driver Unit where
  esp_adc_cal_characterize := fun _ _ _ _ => ()
  esp_adc_cal_raw_to_voltage := fun raw _ => raw

/-- A driver whose characteristics are the attenuation they were derived for, and whose
conversion adds 1000 mV per attenuation step to the raw reading. -/
def atten_driver : Driver adc_atten_t where
  esp_adc_cal_characterize := fun _ a _ _ => a
  esp_adc_cal_raw_to_voltage := fun raw chars =>
    match chars with
    | some .ADC_ATTEN_DB_0 => raw
    | some .ADC_ATTEN_DB_2_5 => raw + 1000
    | some .ADC_ATTEN_DB_6 => raw + 2000
    | some .ADC_ATTEN_DB_11 => raw + 3000
    | none => 0

/-- Configuration succeeds; the raw reads return 100, 102, 98, 100, then 0. -/
def scripted_ok : Responses where
  adc1_config_channel_atten := ESP_OK
  adc1_get_raw := fun i => [100, 102, 98, 100].getD i 0

/-- Configuration fails with status `err`; raw reads would return 100, 102, 98, 100. -/
def scripted_fail (err : Int) : Responses where
  adc1_config_channel_atten := err
  adc1_get_raw := fun i => [100, 102, 98, 100].getD i 0

/-- A successful single read of pin 0 with attenuation 0 dB. -/
def read_pin0_db0 : Call := ⟨0, .ADC_ATTEN_DB_0, 1, scripted_ok⟩

/-- A successful single read of pin 0 with attenuation 11 dB. -/
def read_pin0_db11 : Call := ⟨0, .ADC_ATTEN_DB_11, 1, scripted_ok⟩

/-- A read of pin 0 with attenuation 11 dB whose configuration fails with status 258. -/
def failed_pin0_db11 : Call := ⟨0, .ADC_ATTEN_DB_11, 1, scripted_fail 258⟩

/-- Calls of `log_w`, the warning of the fallback branch. -/
def Event.is_log_w : Event → Bool
  | .log_w _ => true
  | _ => false

/-- Number of initialized entries of the cache array (indices below `ADC1_CHANNEL_COUNT`). -/
def initialized_count {Chars : Type} (v : Variant) (s : State Chars) : Nat :=
  (List.range (ADC1_CHANNEL_COUNT v)).countP (fun i : Nat => s.adc1_cal_initialized (i : Int))

/-- The event hands block `b` to `free`, to the characterization primitive or to the
conversion. -/
def Event.uses (b : Nat) : Event → Bool
  | .free x => decide (x = b)
  | .esp_adc_cal_characterize _ _ _ _ p => decide (p = some b)
  | .esp_adc_cal_raw_to_voltage _ p => decide (p = some b)
  | _ => false

/-- Once a block is freed, no later event of the trace uses it: it is neither freed
again, nor characterized, nor used for a conversion. -/
def released_for_good : List Event → Bool
  | [] => true
  | .free b :: t => t.all (fun e => !e.uses b) && released_for_good t
  | _ :: t => released_for_good t

/-- Blocks freed by the events of a trace, in order. -/
def freed_blocks : List Event → List Nat
  | [] => []
  | .free b :: t => b :: freed_blocks t
  | _ :: t => freed_blocks t

/-- A driver whose conversion is the raw reading capped at 3300 mV. -/
def capped_driver : Driver Unit where
  esp_adc_cal_characterize := fun _ _ _ _ => ()
  esp_adc_cal_raw_to_voltage := fun raw _ => min raw 3300

/-- Configuration succeeds; the two raw reads return -1 and 0 (then 0). -/
def scripted_negative : Responses where
  adc1_config_channel_atten := ESP_OK
  adc1_get_raw := fun i => [-1, 0].getD i 0

/-- A successful single read of pin 1 with attenuation 6 dB. -/
def read_pin1_db6 : Call := ⟨1, .ADC_ATTEN_DB_6, 1, scripted_ok⟩

/-! ## Basic facts -/

theorem get_adc1_channel_eq_neg_one_iff (v : Variant) (pin : Int) :
    get_adc1_channel v pin = -1 ↔ ¬ valid_pin v pin := by
  cases v <;> simp only [get_adc1_channel, valid_pin] <;> split_ifs <;>
    simp only [false_iff, true_iff, not_not] <;> omega

theorem get_adc1_channel_ne_of_valid {v : Variant} {pin : Int} (h : valid_pin v pin) :
    get_adc1_channel v pin ≠ -1 := by
  intro h1
  exact (get_adc1_channel_eq_neg_one_iff v pin).1 h1 h

theorem analogReadMillivolts_invalid {Chars : Type} (v : Variant) (drv : Driver Chars)
    (env : Responses) (s : State Chars) (pin : Int) (a : adc_atten_t) (n : Int)
    (h : get_adc1_channel v pin = -1) :
    analogReadMillivolts v drv env s pin a n =
      { ret := -1, state := s, trace := [Event.log_e_invalid_pin pin] } := by
  simp [analogReadMillivolts, h]

theorem analogReadMillivolts_config_error {Chars : Type} (v : Variant) (drv : Driver Chars)
    (env : Responses) (s : State Chars) (pin : Int) (a : adc_atten_t) (n : Int)
    (h : get_adc1_channel v pin ≠ -1) (herr : env.adc1_config_channel_atten ≠ ESP_OK) :
    analogReadMillivolts v drv env s pin a n =
      { ret := -1, state := s,
        trace := [Event.adc1_config_width (ADC_WIDTH v),
                  Event.adc1_config_channel_atten (get_adc1_channel v pin) a,
                  Event.log_e_config pin env.adc1_config_channel_atten] } := by
  simp [analogReadMillivolts, h, herr]

theorem calibrate_initialized {Chars : Type} (v : Variant) (drv : Driver Chars)
    (s : State Chars) (chan : Int) (a : adc_atten_t) :
    (calibrate v drv s chan a).1.adc1_cal_initialized chan = true := by
  unfold calibrate
  split_ifs with h
  · simp [acquire_chars]
  · simp only [needs_refresh, Bool.or_eq_true, Bool.not_eq_true', not_or] at h
    simpa using h.1

theorem analogReadMillivolts_ok {Chars : Type} (v : Variant) (drv : Driver Chars)
    (env : Responses) (s : State Chars) (pin : Int) (a : adc_atten_t) (n : Int)
    (h : get_adc1_channel v pin ≠ -1) (herr : env.adc1_config_channel_atten = ESP_OK) :
    analogReadMillivolts v drv env s pin a n =
      { ret := to_int32 ((drv.esp_adc_cal_raw_to_voltage
            (to_uint32 (acquire_raw env (get_adc1_channel v pin) n).1)
            ((calibrate v drv s (get_adc1_channel v pin) a).1.deref
              ((calibrate v drv s (get_adc1_channel v pin) a).1.adc1_cal_data
                (get_adc1_channel v pin)).adc_chars) % 2 ^ 32 : Nat) : Int),
        state := (calibrate v drv s (get_adc1_channel v pin) a).1,
        trace := [Event.adc1_config_width (ADC_WIDTH v),
                  Event.adc1_config_channel_atten (get_adc1_channel v pin) a]
          ++ (calibrate v drv s (get_adc1_channel v pin) a).2
          ++ (acquire_raw env (get_adc1_channel v pin) n).2
          ++ [Event.esp_adc_cal_raw_to_voltage
                (to_uint32 (acquire_raw env (get_adc1_channel v pin) n).1)
                ((calibrate v drv s (get_adc1_channel v pin) a).1.adc1_cal_data
                  (get_adc1_channel v pin)).adc_chars] } := by
  simp [analogReadMillivolts, h, herr, calibrate_initialized]

/-! ## Machine integers: when nothing wraps -/

theorem to_int64_of_range {x : Int} (h0 : -(2 ^ 63) ≤ x) (h1 : x < 2 ^ 63) : to_int64 x = x := by
  unfold to_int64
  omega

theorem to_int32_of_range {x : Int} (h0 : -(2 ^ 31) ≤ x) (h1 : x < 2 ^ 31) : to_int32 x = x := by
  unfold to_int32
  omega

theorem to_int32_mod (x : Nat) : to_int32 ((x % 2 ^ 32 : Nat) : Int) = to_int32 (x : Int) := by
  unfold to_int32
  push_cast
  omega

theorem to_uint32_of_range {x : Int} (h0 : 0 ≤ x) (h1 : x < 2 ^ 32) : to_uint32 x = x.toNat := by
  unfold to_uint32
  rw [Int.emod_eq_of_lt h0 h1]

/-! ## The sampling step -/

theorem oversample_loop_trace (raws : Nat → Int) (chan : Int) (k i : Nat) (sum : Int)
    (t : List Event) :
    (oversample_loop raws chan k i sum t).2 = t ++ List.replicate k (Event.adc1_get_raw chan) := by
  induction k generalizing i sum t with
  | zero => simp [oversample_loop]
  | succ k ih =>
    rw [oversample_loop, ih]
    simp [List.replicate_succ]

/-- While the samples lie in `[0, m]` and `sum + k * m` fits a `long long`, the accumulator
of the loop is the exact sum. -/
theorem oversample_loop_sum (raws : Nat → Int) (chan : Int) (m : Int) (k i : Nat) (sum : Int)
    (t : List Event) (hm : 0 ≤ m) (hsum : 0 ≤ sum) (hfit : sum + (k : Int) * m < 2 ^ 63)
    (hraw : ∀ j : Nat, j < k → 0 ≤ raws (i + j) ∧ raws (i + j) ≤ m) :
    (oversample_loop raws chan k i sum t).1 = sum + ∑ j ∈ Finset.range k, raws (i + j) := by
  induction k generalizing i sum t with
  | zero => simp [oversample_loop]
  | succ k ih =>
    have h0 := hraw 0 (Nat.succ_pos k)
    simp only [Nat.add_zero] at h0
    have hk : ((k + 1 : Nat) : Int) * m = (k : Int) * m + m := by push_cast; ring
    have hkm : 0 ≤ (k : Int) * m := mul_nonneg (Int.ofNat_nonneg k) hm
    rw [hk] at hfit
    have hw : to_int64 (sum + raws i) = sum + raws i :=
      to_int64_of_range (by linarith [h0.1]) (by linarith [h0.2])
    rw [oversample_loop, hw, ih (i + 1) (sum + raws i) _ (by linarith [h0.1])
      (by linarith [h0.2])]
    · rw [Finset.sum_range_succ']
      have : ∀ j, raws (i + 1 + j) = raws (i + (j + 1)) := fun j => by
        rw [Nat.add_assoc, Nat.add_comm 1 j]
      simp only [this, Nat.add_zero]
      ring
    · intro j hj
      have := hraw (j + 1) (Nat.succ_lt_succ hj)
      rwa [Nat.add_assoc, Nat.add_comm 1 j]

theorem sum_range_bounds (f : Nat → Int) (m : Int) (k : Nat)
    (h : ∀ j : Nat, j < k → 0 ≤ f j ∧ f j ≤ m) :
    0 ≤ ∑ j ∈ Finset.range k, f j ∧ ∑ j ∈ Finset.range k, f j ≤ (k : Int) * m := by
  induction k with
  | zero => simp
  | succ k ih =>
    have hk := h k (Nat.lt_succ_self k)
    have ih2 := ih (fun j hj => h j (Nat.lt_succ_of_lt hj))
    rw [Finset.sum_range_succ]
    have : ((k + 1 : Nat) : Int) * m = (k : Int) * m + m := by push_cast; ring
    rw [this]
    exact ⟨by linarith [ih2.1, hk.1], by linarith [ih2.2, hk.2]⟩

theorem acquire_raw_trace (env : Responses) (chan : Int) (n : Int) :
    (acquire_raw env chan n).2 =
      List.replicate (if 1 < n then n.toNat else 1) (Event.adc1_get_raw chan) := by
  unfold acquire_raw
  split_ifs with h1
  · simp [oversample_loop_trace]
  · simp

theorem acquire_raw_single (env : Responses) (chan : Int) (n : Int) (h : n ≤ 1) :
    acquire_raw env chan n = (env.adc1_get_raw 0, [Event.adc1_get_raw chan]) := by
  unfold acquire_raw
  rw [if_neg (by omega)]

/-- With `n > 1` samples in `[0, m]`, `m` and `n` below `2^31`, the averaging path
computes the floor of the exact mean, which lies in `[0, m]`. -/
theorem acquire_raw_average (env : Responses) (chan : Int) (n m : Int) (h1 : 1 < n)
    (hn : n < 2 ^ 31) (hm0 : 0 ≤ m) (hm : m < 2 ^ 31)
    (hraw : ∀ i : Nat, (i : Int) < n → 0 ≤ env.adc1_get_raw i ∧ env.adc1_get_raw i ≤ m) :
    (acquire_raw env chan n).1 = (∑ i ∈ Finset.range n.toNat, env.adc1_get_raw i) / n ∧
    0 ≤ (acquire_raw env chan n).1 ∧ (acquire_raw env chan n).1 ≤ m := by
  have hcast : ((n.toNat : Nat) : Int) = n := Int.toNat_of_nonneg (by omega)
  have hraw2 : ∀ j : Nat, j < n.toNat → 0 ≤ env.adc1_get_raw j ∧ env.adc1_get_raw j ≤ m :=
    fun j hj => hraw j (by omega)
  have hb := sum_range_bounds env.adc1_get_raw m n.toNat hraw2
  rw [hcast] at hb
  have hnm : n * m < 2 ^ 63 := by nlinarith
  have hs := oversample_loop_sum env.adc1_get_raw chan m n.toNat 0 0 [] hm0 le_rfl
    (by rw [hcast]; linarith) (by simpa using hraw2)
  simp only [Nat.zero_add, zero_add] at hs
  have hdiv0 : 0 ≤ (∑ i ∈ Finset.range n.toNat, env.adc1_get_raw i) / n :=
    Int.ediv_nonneg hb.1 (by omega)
  have hdiv1 : (∑ i ∈ Finset.range n.toNat, env.adc1_get_raw i) / n ≤ m := by
    have : (∑ i ∈ Finset.range n.toNat, env.adc1_get_raw i) / n ≤ (n * m) / n :=
      Int.ediv_le_ediv (by omega) hb.2
    rwa [Int.mul_ediv_cancel_left m (by omega : n ≠ 0)] at this
  have hval : (acquire_raw env chan n).1 =
      (∑ i ∈ Finset.range n.toNat, env.adc1_get_raw i) / n := by
    unfold acquire_raw
    rw [if_pos h1]
    simp only [hs]
    rw [Int.tdiv_eq_ediv hb.1 (by omega)]
    exact to_int32_of_range (by linarith) (by linarith)
  rw [hval]
  exact ⟨rfl, hdiv0, hdiv1⟩

/-! ## The calibration step -/

theorem calibrate_no_refresh {Chars : Type} (v : Variant) (drv : Driver Chars)
    (s : State Chars) (chan : Int) (a : adc_atten_t) (h : needs_refresh s chan a = false) :
    calibrate v drv s chan a = (s, []) := by
  unfold calibrate
  rw [if_neg (by simp [h])]

theorem calibrate_refresh {Chars : Type} (v : Variant) (drv : Driver Chars)
    (s : State Chars) (chan : Int) (a : adc_atten_t) (h : needs_refresh s chan a = true) :
    calibrate v drv s chan a =
      ((acquire_chars v drv (release_chars s chan).1 chan a).1,
       (release_chars s chan).2 ++ (acquire_chars v drv (release_chars s chan).1 chan a).2) := by
  unfold calibrate
  rw [if_pos h]

theorem release_chars_trace {Chars : Type} (s : State Chars) (chan : Int) :
    (release_chars s chan).2 =
      match (s.adc1_cal_data chan).adc_chars with
      | some b => [Event.free b]
      | none => [] := by
  unfold release_chars
  cases (s.adc1_cal_data chan).adc_chars <;> rfl

theorem calibrate_trace_sampling {Chars : Type} (v : Variant) (drv : Driver Chars)
    (s : State Chars) (chan : Int) (a : adc_atten_t) :
    ∀ e ∈ (calibrate v drv s chan a).2, e.is_get_raw = false ∧ e.is_raw_to_voltage = false := by
  intro e he
  cases hr : needs_refresh s chan a
  · rw [calibrate_no_refresh v drv s chan a hr] at he
    simp at he
  · rw [calibrate_refresh v drv s chan a hr, release_chars_trace] at he
    cases hp : (s.adc1_cal_data chan).adc_chars <;> rw [hp] at he <;>
      simp only [acquire_chars, List.nil_append, List.cons_append, List.mem_cons,
        List.mem_singleton, List.not_mem_nil, or_false] at he
    · rcases he with he | he <;> simp [he, Event.is_get_raw, Event.is_raw_to_voltage]
    · rcases he with he | he | he <;> simp [he, Event.is_get_raw, Event.is_raw_to_voltage]

theorem floor_average_eq (raws : Nat → Int) (n : Nat) :
    floor_average raws n = (∑ i ∈ Finset.range n, raws i) / (n : Int) := by
  unfold floor_average
  exact Rat.floor_intCast_div_natCast _ _

theorem trace_filter_get_raw {Chars : Type} (v : Variant) (drv : Driver Chars)
    (env : Responses) (s : State Chars) (pin : Int) (a : adc_atten_t) (n : Int)
    (h : get_adc1_channel v pin ≠ -1) (herr : env.adc1_config_channel_atten = ESP_OK) :
    (analogReadMillivolts v drv env s pin a n).trace.filter Event.is_get_raw =
      List.replicate (if 1 < n then n.toNat else 1)
        (Event.adc1_get_raw (get_adc1_channel v pin)) := by
  rw [analogReadMillivolts_ok v drv env s pin a n h herr]
  have hc : (calibrate v drv s (get_adc1_channel v pin) a).2.filter Event.is_get_raw = [] := by
    rw [List.filter_eq_nil_iff]
    intro e he
    simp [(calibrate_trace_sampling v drv s _ a e he).1]
  simp only [List.filter_append, hc, acquire_raw_trace]
  simp [List.filter_cons, Event.is_get_raw, List.filter_replicate]

theorem trace_filter_raw_to_voltage {Chars : Type} (v : Variant) (drv : Driver Chars)
    (env : Responses) (s : State Chars) (pin : Int) (a : adc_atten_t) (n : Int)
    (h : get_adc1_channel v pin ≠ -1) (herr : env.adc1_config_channel_atten = ESP_OK) :
    (analogReadMillivolts v drv env s pin a n).trace.filter Event.is_raw_to_voltage =
      [Event.esp_adc_cal_raw_to_voltage
        (to_uint32 (acquire_raw env (get_adc1_channel v pin) n).1)
        (((analogReadMillivolts v drv env s pin a n).state.adc1_cal_data
          (get_adc1_channel v pin)).adc_chars)] := by
  rw [analogReadMillivolts_ok v drv env s pin a n h herr]
  have hc : (calibrate v drv s (get_adc1_channel v pin) a).2.filter
      Event.is_raw_to_voltage = [] := by
    rw [List.filter_eq_nil_iff]
    intro e he
    simp [(calibrate_trace_sampling v drv s _ a e he).2]
  simp only [List.filter_append, hc, acquire_raw_trace]
  simp [List.filter_cons, Event.is_raw_to_voltage, List.filter_replicate]

theorem bits_bound (v : Variant) :
    (0 : Int) ≤ 2 ^ (ADC_WIDTH v).bits - 1 ∧ (2 : Int) ^ (ADC_WIDTH v).bits - 1 < 2 ^ 31 := by
  cases v <;> simp [ADC_WIDTH, adc_bits_width_t.bits]

theorem needs_refresh_iff {Chars : Type} (s : State Chars) (chan : Int) (a : adc_atten_t) :
    needs_refresh s chan a = true ↔
      (s.adc1_cal_initialized chan = false ∨ (s.adc1_cal_data chan).current_atten ≠ a) := by
  simp [needs_refresh]

theorem needs_refresh_false_iff {Chars : Type} (s : State Chars) (chan : Int) (a : adc_atten_t) :
    needs_refresh s chan a = false ↔
      (s.adc1_cal_initialized chan = true ∧ (s.adc1_cal_data chan).current_atten = a) := by
  simp [needs_refresh]

theorem calibrate_refresh_state {Chars : Type} (v : Variant) (drv : Driver Chars)
    (s : State Chars) (chan : Int) (a : adc_atten_t) (h : needs_refresh s chan a = true) :
    (calibrate v drv s chan a).1 =
      { adc1_cal_data := Function.update s.adc1_cal_data chan
          { adc_chars := some s.heap_next, current_atten := a },
        adc1_cal_initialized := Function.update s.adc1_cal_initialized chan true,
        heap_next := s.heap_next + 1,
        heap_live := Function.update (released_live s chan) s.heap_next true,
        heap_content := Function.update s.heap_content s.heap_next
          (some (drv.esp_adc_cal_characterize .ADC_UNIT_1 a (ADC_WIDTH v) 3300)) } := by
  rw [calibrate_refresh v drv s chan a h]
  unfold release_chars released_live acquire_chars
  cases (s.adc1_cal_data chan).adc_chars <;> rfl

theorem calibrate_refresh_trace {Chars : Type} (v : Variant) (drv : Driver Chars)
    (s : State Chars) (chan : Int) (a : adc_atten_t) (h : needs_refresh s chan a = true) :
    (calibrate v drv s chan a).2 =
      (match (s.adc1_cal_data chan).adc_chars with
        | some b => [Event.free b]
        | none => []) ++
      [Event.malloc s.heap_next,
       Event.esp_adc_cal_characterize .ADC_UNIT_1 a (ADC_WIDTH v) 3300 (some s.heap_next)] := by
  rw [calibrate_refresh v drv s chan a h]
  unfold release_chars acquire_chars
  cases (s.adc1_cal_data chan).adc_chars <;> rfl

theorem released_live_le {Chars : Type} (s : State Chars) (chan : Int) (b : Nat)
    (h : released_live s chan b = true) : s.heap_live b = true := by
  unfold released_live at h
  cases hp : (s.adc1_cal_data chan).adc_chars with
  | none => rw [hp] at h; exact h
  | some b0 =>
    rw [hp] at h
    simp only [Function.update_apply] at h
    split_ifs at h
    exact h

theorem released_live_held {Chars : Type} (s : State Chars) (chan : Int) (b : Nat)
    (h : (s.adc1_cal_data chan).adc_chars = some b) : released_live s chan b = false := by
  unfold released_live
  rw [h]
  simp

theorem released_live_other {Chars : Type} (s : State Chars) (chan : Int) (b : Nat)
    (h : (s.adc1_cal_data chan).adc_chars ≠ some b) : released_live s chan b = s.heap_live b := by
  unfold released_live
  cases hp : (s.adc1_cal_data chan).adc_chars with
  | none => rfl
  | some b0 =>
    have : b ≠ b0 := fun e => h (by rw [hp, e])
    simp [Function.update_apply, this]

/-! ## The cache invariant -/

theorem cacheInv_init {Chars : Type} (v : Variant) (drv : Driver Chars) :
    CacheInv v drv (State.init Chars) where
  held := fun c h => by simp [State.init] at h
  null := fun c _ => rfl
  inj := fun c c2 b h => by simp [State.init] at h
  owned := fun b h => by simp [State.init] at h

theorem CacheInv.lt_next {Chars : Type} {v : Variant} {drv : Driver Chars} {s : State Chars}
    (hinv : CacheInv v drv s) {c : Int} {b : Nat} (h : (s.adc1_cal_data c).adc_chars = some b) :
    b < s.heap_next ∧ s.adc1_cal_initialized c = true ∧ s.heap_live b = true ∧
      s.heap_content b = some (drv.esp_adc_cal_characterize .ADC_UNIT_1
        (s.adc1_cal_data c).current_atten (ADC_WIDTH v) 3300) := by
  have hi : s.adc1_cal_initialized c = true := by
    cases hc : s.adc1_cal_initialized c
    · rw [hinv.null c hc] at h; exact absurd h (by simp)
    · rfl
  obtain ⟨b2, hb2, hlt, hlive, hcont⟩ := hinv.held c hi
  have : b = b2 := by rw [h] at hb2; exact Option.some.inj hb2
  subst this
  exact ⟨hlt, hi, hlive, hcont⟩

theorem cacheInv_calibrate {Chars : Type} (v : Variant) (drv : Driver Chars)
    (s : State Chars) (chan : Int) (a : adc_atten_t) (hinv : CacheInv v drv s) :
    CacheInv v drv (calibrate v drv s chan a).1 := by
  cases hr : needs_refresh s chan a
  · rw [calibrate_no_refresh v drv s chan a hr]; exact hinv
  · rw [calibrate_refresh_state v drv s chan a hr]
    constructor
    · intro c hc
      by_cases hcc : c = chan
      · subst hcc
        exact ⟨s.heap_next, by simp, by simp, by simp, by simp⟩
      · simp only [Function.update_apply, if_neg hcc] at hc ⊢
        obtain ⟨b, hb, hlt, hlive, hcont⟩ := hinv.held c hc
        have hne : b ≠ s.heap_next := Nat.ne_of_lt hlt
        refine ⟨b, hb, Nat.lt_succ_of_lt hlt, ?_, ?_⟩
        · rw [if_neg hne, released_live_other s chan b, hlive]
          intro hch
          exact hcc (hinv.inj c chan b hb hch)
        · rw [if_neg hne, hcont]
    · intro c hc
      by_cases hcc : c = chan
      · subst hcc; simp at hc
      · simp only [Function.update_apply, if_neg hcc] at hc ⊢
        exact hinv.null c hc
    · intro c c2 b h1 h2
      by_cases hc1 : c = chan <;> by_cases hc2 : c2 = chan
      · rw [hc1, hc2]
      · simp only [Function.update_apply, if_pos hc1, if_neg hc2] at h1 h2
        have hb : s.heap_next = b := Option.some.inj h1
        have := (hinv.lt_next h2).1
        omega
      · simp only [Function.update_apply, if_neg hc1, if_pos hc2] at h1 h2
        have hb : s.heap_next = b := Option.some.inj h2
        have := (hinv.lt_next h1).1
        omega
      · simp only [Function.update_apply, if_neg hc1, if_neg hc2] at h1 h2
        exact hinv.inj c c2 b h1 h2
    · intro b hb
      by_cases hbn : b = s.heap_next
      · subst hbn
        exact ⟨Nat.lt_succ_self _, chan, by simp⟩
      · simp only [Function.update_apply, if_neg hbn] at hb
        obtain ⟨hlt, c, hc⟩ := hinv.owned b (released_live_le s chan b hb)
        refine ⟨Nat.lt_succ_of_lt hlt, c, ?_⟩
        have hcc : c ≠ chan := by
          intro e
          rw [e] at hc
          rw [released_live_held s chan b hc] at hb
          exact absurd hb (by simp)
        simp only [Function.update_apply, if_neg hcc]
        exact hc

theorem analogReadMillivolts_state {Chars : Type} (v : Variant) (drv : Driver Chars)
    (env : Responses) (s : State Chars) (pin : Int) (a : adc_atten_t) (n : Int) :
    (analogReadMillivolts v drv env s pin a n).state =
      if get_adc1_channel v pin ≠ -1 ∧ env.adc1_config_channel_atten = ESP_OK then
        (calibrate v drv s (get_adc1_channel v pin) a).1
      else s := by
  by_cases h : get_adc1_channel v pin = -1
  · rw [analogReadMillivolts_invalid v drv env s pin a n h, if_neg (by simp [h])]
  · by_cases herr : env.adc1_config_channel_atten = ESP_OK
    · rw [analogReadMillivolts_ok v drv env s pin a n h herr, if_pos ⟨h, herr⟩]
    · rw [analogReadMillivolts_config_error v drv env s pin a n h herr,
        if_neg (by simp [herr])]

theorem cacheInv_step {Chars : Type} (v : Variant) (drv : Driver Chars)
    (env : Responses) (s : State Chars) (pin : Int) (a : adc_atten_t) (n : Int)
    (hinv : CacheInv v drv s) :
    CacheInv v drv (analogReadMillivolts v drv env s pin a n).state := by
  rw [analogReadMillivolts_state]
  split_ifs
  · exact cacheInv_calibrate v drv s _ a hinv
  · exact hinv

theorem cacheInv_run {Chars : Type} (v : Variant) (drv : Driver Chars)
    (calls : List Call) (s : State Chars) (hinv : CacheInv v drv s) :
    CacheInv v drv (run v drv s calls) := by
  induction calls generalizing s with
  | nil => exact hinv
  | cons c cs ih => exact ih _ (cacheInv_step v drv c.env s c.pin c.attenuation c.oversampling hinv)

theorem cacheInv_of_reachable {Chars : Type} {v : Variant} {drv : Driver Chars}
    {s : State Chars} (h : Reachable v drv s) : CacheInv v drv s := by
  obtain ⟨calls, rfl⟩ := h
  exact cacheInv_run v drv calls _ (cacheInv_init v drv)

theorem calibrate_current_atten {Chars : Type} (v : Variant) (drv : Driver Chars)
    (s : State Chars) (chan : Int) (a : adc_atten_t) :
    ((calibrate v drv s chan a).1.adc1_cal_data chan).current_atten = a := by
  cases hr : needs_refresh s chan a
  · rw [calibrate_no_refresh v drv s chan a hr]
    exact ((needs_refresh_false_iff s chan a).1 hr).2
  · rw [calibrate_refresh_state v drv s chan a hr]
    simp

theorem calibrate_other {Chars : Type} (v : Variant) (drv : Driver Chars)
    (s : State Chars) (chan c : Int) (a : adc_atten_t) (hc : c ≠ chan) :
    (calibrate v drv s chan a).1.adc1_cal_data c = s.adc1_cal_data c ∧
    (calibrate v drv s chan a).1.adc1_cal_initialized c = s.adc1_cal_initialized c := by
  cases hr : needs_refresh s chan a
  · rw [calibrate_no_refresh v drv s chan a hr]
    exact ⟨rfl, rfl⟩
  · rw [calibrate_refresh_state v drv s chan a hr]
    simp [Function.update_apply, hc]

/-- After the calibration step in a state satisfying the invariant, the
block cached for the channel is live and holds the characteristics of the requested
attenuation. -/
theorem deref_after_calibrate {Chars : Type} (v : Variant) (drv : Driver Chars)
    (s : State Chars) (chan : Int) (a : adc_atten_t) (hinv : CacheInv v drv s) :
    (calibrate v drv s chan a).1.deref
      ((calibrate v drv s chan a).1.adc1_cal_data chan).adc_chars =
      some (drv.esp_adc_cal_characterize .ADC_UNIT_1 a (ADC_WIDTH v) 3300) := by
  have hinv2 := cacheInv_calibrate v drv s chan a hinv
  obtain ⟨b, hb, _, hlive, hcont⟩ :=
    hinv2.held _ (calibrate_initialized v drv s chan a)
  rw [calibrate_current_atten] at hcont
  rw [hb]
  simp [State.deref, hlive, hcont]

/-! ## Tracking the attenuation last configured on a channel -/

theorem tracks_init (Chars : Type) (chan : Int) : Tracks (State.init Chars) chan none :=
  ⟨rfl, fun a h => by simp at h⟩

theorem tracks_exec {Chars : Type} (v : Variant) (drv : Driver Chars) (s : State Chars)
    (chan : Int) (last : Option adc_atten_t) (c : Call) (ht : Tracks s chan last) :
    Tracks (c.exec v drv s).state chan
      (if c.configures v chan then some c.attenuation else last) := by
  unfold Call.exec
  rw [analogReadMillivolts_state]
  by_cases hconf : c.configures v chan = true
  · rw [if_pos hconf]
    simp only [Call.configures, Bool.and_eq_true, decide_eq_true_eq] at hconf
    obtain ⟨⟨hch, hne⟩, herr⟩ := hconf
    rw [hch, if_pos ⟨hne, herr⟩]
    refine ⟨by simp [calibrate_initialized], ?_⟩
    intro a ha
    rw [calibrate_current_atten]
    exact Option.some.inj ha
  · rw [if_neg hconf]
    split_ifs with hp
    · have hc : chan ≠ get_adc1_channel v c.pin := by
        intro e
        apply hconf
        simp [Call.configures, ← e, hp.2]
        rw [e]; exact hp.1
      have ho := calibrate_other v drv s (get_adc1_channel v c.pin) chan c.attenuation hc
      exact ⟨by rw [ho.2]; exact ht.1, fun a ha => by rw [ho.1]; exact ht.2 a ha⟩
    · exact ht

theorem tracks_run {Chars : Type} (v : Variant) (drv : Driver Chars) (chan : Int)
    (calls : List Call) (s : State Chars) (last : Option adc_atten_t) (ht : Tracks s chan last) :
    Tracks (run v drv s calls) chan (last_configured v chan last calls) := by
  induction calls generalizing s last with
  | nil => exact ht
  | cons c cs ih => exact ih _ _ (tracks_exec v drv s chan last c ht)

theorem tracks_needs_refresh {Chars : Type} {s : State Chars} {chan : Int}
    {last : Option adc_atten_t} (ht : Tracks s chan last) (a : adc_atten_t) :
    needs_refresh s chan a = true ↔ last ≠ some a := by
  rw [needs_refresh_iff]
  obtain ⟨h1, h2⟩ := ht
  cases last with
  | none => simp [h1]
  | some x =>
    have := h2 x rfl
    simp [h1, this]

/-- Number of characterizations for attenuation `a` made by one call. -/
theorem characterizes_count_call {Chars : Type} (v : Variant) (drv : Driver Chars)
    (env : Responses) (s : State Chars) (pin : Int) (att a : adc_atten_t) (n : Int) :
    (analogReadMillivolts v drv env s pin att n).trace.countP (Event.characterizes a) =
      if get_adc1_channel v pin ≠ -1 ∧ env.adc1_config_channel_atten = ESP_OK ∧
          needs_refresh s (get_adc1_channel v pin) att = true ∧ att = a then 1 else 0 := by
  by_cases h : get_adc1_channel v pin = -1
  · rw [analogReadMillivolts_invalid v drv env s pin att n h, if_neg (by simp [h])]
    simp [Event.characterizes]
  · by_cases herr : env.adc1_config_channel_atten = ESP_OK
    · rw [analogReadMillivolts_ok v drv env s pin att n h herr]
      cases hr : needs_refresh s (get_adc1_channel v pin) att
      · rw [if_neg (by simp)]
        simp only [calibrate_no_refresh v drv s _ att hr, acquire_raw_trace]
        simp [List.countP_cons, List.countP_append, List.countP_replicate, Event.characterizes]
      · simp only [calibrate_refresh_trace v drv s _ att hr, acquire_raw_trace]
        cases (s.adc1_cal_data (get_adc1_channel v pin)).adc_chars <;>
          by_cases haa : att = a <;>
          simp [List.countP_cons, List.countP_append, List.countP_replicate,
            Event.characterizes, h, herr, haa]
    · rw [analogReadMillivolts_config_error v drv env s pin att n h herr,
        if_neg (by simp [herr])]
      simp [List.countP_cons, Event.characterizes]

theorem characterize_count_eq {Chars : Type} (v : Variant) (drv : Driver Chars) (chan : Int)
    (a : adc_atten_t) (calls : List Call) (s : State Chars) (last : Option adc_atten_t)
    (ht : Tracks s chan last) :
    characterize_count v drv chan a s calls = attenuation_switches v chan a last calls := by
  induction calls generalizing s last with
  | nil => rfl
  | cons c cs ih =>
    have hstep := tracks_exec v drv s chan last c ht
    rw [characterize_count, attenuation_switches]
    by_cases hconf : c.configures v chan = true
    · rw [if_pos hconf] at hstep ⊢
      rw [ih _ _ hstep]
      simp only [Call.configures, Bool.and_eq_true, decide_eq_true_eq] at hconf
      obtain ⟨⟨hch, hne⟩, herr⟩ := hconf
      rw [if_pos hch]
      unfold Call.exec
      rw [characterizes_count_call, hch]
      congr 1
      have hnr := tracks_needs_refresh ht c.attenuation
      by_cases haa : c.attenuation = a
      · subst haa
        by_cases hl : last = some c.attenuation
        · have : needs_refresh s chan c.attenuation ≠ true := fun e => (hnr.1 e) hl
          simp [hl, this]
        · have : needs_refresh s chan c.attenuation = true := hnr.2 hl
          simp [hl, this, hne, herr]
      · simp [haa]
    · rw [if_neg hconf] at hstep ⊢
      rw [ih _ _ hstep]
      have : (if get_adc1_channel v c.pin = chan then
          (c.exec v drv s).trace.countP (Event.characterizes a) else 0) = 0 := by
        split_ifs with hch
        · unfold Call.exec
          rw [characterizes_count_call, if_neg]
          rintro ⟨h1, h2, -, -⟩
          apply hconf
          simp [Call.configures, hch, h2]
          rw [← hch]; exact h1
        · rfl
      rw [this, Nat.zero_add]

theorem trace_no_characterize {Chars : Type} (v : Variant) (drv : Driver Chars)
    (env : Responses) (s : State Chars) (pin : Int) (a : adc_atten_t) (n : Int)
    (h : get_adc1_channel v pin ≠ -1) (herr : env.adc1_config_channel_atten = ESP_OK)
    (hr : needs_refresh s (get_adc1_channel v pin) a = false) :
    (analogReadMillivolts v drv env s pin a n).trace.filter Event.is_characterize = [] := by
  rw [analogReadMillivolts_ok v drv env s pin a n h herr]
  simp only [calibrate_no_refresh v drv s _ a hr, acquire_raw_trace]
  simp [List.filter_cons, Event.is_characterize, List.filter_replicate]

theorem analogReadMillivolts_ret_of_inv {Chars : Type} (v : Variant) (drv : Driver Chars)
    (env : Responses) (s : State Chars) (pin : Int) (a : adc_atten_t) (n : Int)
    (hinv : CacheInv v drv s) (h : get_adc1_channel v pin ≠ -1)
    (herr : env.adc1_config_channel_atten = ESP_OK) :
    (analogReadMillivolts v drv env s pin a n).ret =
      to_int32 (drv.esp_adc_cal_raw_to_voltage
        (to_uint32 (acquire_raw env (get_adc1_channel v pin) n).1)
        (some (drv.esp_adc_cal_characterize .ADC_UNIT_1 a (ADC_WIDTH v) 3300))) := by
  rw [analogReadMillivolts_ok v drv env s pin a n h herr]
  simp only [deref_after_calibrate v drv s _ a hinv]
  exact to_int32_mod _

/-! ## C1: invalid pin -/

/-- C1: for a pin outside the mapped set of the variant, whatever the attenuation, the
oversampling value, the driver and the cache state, `analogReadMillivolts` returns -1,
leaves the state (calibration cache and heap) unchanged, and its only call is the error
log: no driver call, no `malloc`, no `free`. -/
theorem C1_invalid_pin {Chars : Type} (v : Variant) (drv : Driver Chars) (env : Responses)
    (s : State Chars) (pin : Int) (a : adc_atten_t) (n : Int) (hpin : ¬ valid_pin v pin) :
    (analogReadMillivolts v drv env s pin a n).ret = -1 ∧
    (analogReadMillivolts v drv env s pin a n).state = s ∧
    (analogReadMillivolts v drv env s pin a n).trace = [Event.log_e_invalid_pin pin] ∧
    (∀ e ∈ (analogReadMillivolts v drv env s pin a n).trace,
      e.is_driver_call = false ∧ e.is_malloc = false ∧ e.is_free = false) := by
  have h := (get_adc1_channel_eq_neg_one_iff v pin).2 hpin
  rw [analogReadMillivolts_invalid v drv env s pin a n h]
  simp [Event.is_driver_call, Event.is_malloc, Event.is_free]

/-- Witness of C1: pin 6 on the C3 and pin 3 on the S2, oversampling 4, from the initial
state. -/
theorem C1_invalid_pin_witness :
    (¬ valid_pin .esp32_c3 6 ∧
      (analogReadMillivolts .esp32_c3 identity_driver scripted_ok (State.init Unit) 6
        .ADC_ATTEN_DB_11 4).ret = -1) ∧
    (¬ valid_pin .esp32_s2 3 ∧
      (analogReadMillivolts .esp32_s2 identity_driver scripted_ok (State.init Unit) 3
        .ADC_ATTEN_DB_11 4).ret = -1) :=
  ⟨⟨by decide, (C1_invalid_pin .esp32_c3 identity_driver scripted_ok (State.init Unit) 6
      .ADC_ATTEN_DB_11 4 (by decide)).1⟩,
   ⟨by decide, (C1_invalid_pin .esp32_s2 identity_driver scripted_ok (State.init Unit) 3
      .ADC_ATTEN_DB_11 4 (by decide)).1⟩⟩

/-! ## C2: driver configuration failure -/

/-- C2: for a valid pin, when `adc1_config_channel_atten` returns a status other than
`ESP_OK`, `analogReadMillivolts` returns -1 (the value returned for an invalid pin),
leaves the state unchanged, and its calls are exactly the two configuration calls and
the error log: no raw read, no characterization, no `malloc`, no `free`, no conversion. -/
theorem C2_config_failure {Chars : Type} (v : Variant) (drv : Driver Chars) (env : Responses)
    (s : State Chars) (pin : Int) (a : adc_atten_t) (n : Int) (hpin : valid_pin v pin)
    (herr : env.adc1_config_channel_atten ≠ ESP_OK) :
    (analogReadMillivolts v drv env s pin a n).ret = -1 ∧
    (∀ pin2 : Int, ¬ valid_pin v pin2 →
      (analogReadMillivolts v drv env s pin a n).ret =
        (analogReadMillivolts v drv env s pin2 a n).ret) ∧
    (analogReadMillivolts v drv env s pin a n).state = s ∧
    (analogReadMillivolts v drv env s pin a n).trace =
      [Event.adc1_config_width (ADC_WIDTH v),
       Event.adc1_config_channel_atten (get_adc1_channel v pin) a,
       Event.log_e_config pin env.adc1_config_channel_atten] ∧
    (∀ e ∈ (analogReadMillivolts v drv env s pin a n).trace,
      e.is_get_raw = false ∧ e.is_characterize = false ∧ e.is_malloc = false ∧
        e.is_free = false ∧ e.is_raw_to_voltage = false) := by
  have h := get_adc1_channel_ne_of_valid hpin
  rw [analogReadMillivolts_config_error v drv env s pin a n h herr]
  refine ⟨rfl, ?_, rfl, rfl, ?_⟩
  · intro pin2 h2
    rw [analogReadMillivolts_invalid v drv env s pin2 a n
      ((get_adc1_channel_eq_neg_one_iff v pin2).2 h2)]
  · simp [Event.is_get_raw, Event.is_characterize, Event.is_malloc, Event.is_free,
      Event.is_raw_to_voltage]

/-- Witness of C2: pin 0 on the C3, status 258, oversampling 4, from the initial state. -/
theorem C2_config_failure_witness :
    valid_pin .esp32_c3 0 ∧ (scripted_fail 258).adc1_config_channel_atten ≠ ESP_OK ∧
    (analogReadMillivolts .esp32_c3 identity_driver (scripted_fail 258) (State.init Unit) 0
      .ADC_ATTEN_DB_11 4).ret = -1 :=
  ⟨by decide, by decide,
   (C2_config_failure .esp32_c3 identity_driver (scripted_fail 258) (State.init Unit) 0
      .ADC_ATTEN_DB_11 4 (by decide) (by decide)).1⟩

/-! ## C3: oversampling -/

/-- C3: for a valid pin, successful configuration and an oversampling count `n > 1`
(an `int`, so below `2^31`) with raw samples in `[0, 2^resolution - 1]`,
`analogReadMillivolts` makes exactly `n` raw reads, all on the resolved channel, makes
one conversion, whose arguments are the floor of the mean of the samples and the block
cached for that channel, and returns what the conversion returned (a `uint32_t`, cast
to `int`: the same number whenever it is below `2^31`).  With samples 100, 102, 98, 100,
`n = 4`, attenuation 11 dB and the identity conversion the result is 100, on both chips. -/
theorem C3_oversampled_average {Chars : Type} (v : Variant) (drv : Driver Chars)
    (env : Responses) (s : State Chars) (pin : Int) (a : adc_atten_t) (n : Int)
    (hpin : valid_pin v pin) (hcfg : env.adc1_config_channel_atten = ESP_OK)
    (h1 : 1 < n) (hn : n < 2 ^ 31)
    (hraw : ∀ i : Nat, (i : Int) < n →
      0 ≤ env.adc1_get_raw i ∧ env.adc1_get_raw i ≤ 2 ^ (ADC_WIDTH v).bits - 1) :
    (analogReadMillivolts v drv env s pin a n).trace.filter Event.is_get_raw =
      List.replicate n.toNat (Event.adc1_get_raw (get_adc1_channel v pin)) ∧
    (analogReadMillivolts v drv env s pin a n).trace.filter Event.is_raw_to_voltage =
      [Event.esp_adc_cal_raw_to_voltage (floor_average env.adc1_get_raw n.toNat).toNat
        (((analogReadMillivolts v drv env s pin a n).state.adc1_cal_data
          (get_adc1_channel v pin)).adc_chars)] ∧
    (analogReadMillivolts v drv env s pin a n).ret =
      to_int32 (drv.esp_adc_cal_raw_to_voltage (floor_average env.adc1_get_raw n.toNat).toNat
        ((analogReadMillivolts v drv env s pin a n).state.deref
          ((analogReadMillivolts v drv env s pin a n).state.adc1_cal_data
            (get_adc1_channel v pin)).adc_chars)) ∧
    (drv.esp_adc_cal_raw_to_voltage (floor_average env.adc1_get_raw n.toNat).toNat
        ((analogReadMillivolts v drv env s pin a n).state.deref
          ((analogReadMillivolts v drv env s pin a n).state.adc1_cal_data
            (get_adc1_channel v pin)).adc_chars) < 2 ^ 31 →
      (analogReadMillivolts v drv env s pin a n).ret =
        drv.esp_adc_cal_raw_to_voltage (floor_average env.adc1_get_raw n.toNat).toNat
          ((analogReadMillivolts v drv env s pin a n).state.deref
            ((analogReadMillivolts v drv env s pin a n).state.adc1_cal_data
              (get_adc1_channel v pin)).adc_chars)) ∧
    (analogReadMillivolts .esp32_c3 identity_driver scripted_ok (State.init Unit) 0
      .ADC_ATTEN_DB_11 4).ret = 100 ∧
    (analogReadMillivolts .esp32_s2 identity_driver scripted_ok (State.init Unit) 4
      .ADC_ATTEN_DB_11 4).ret = 100 := by
  have h := get_adc1_channel_ne_of_valid hpin
  have hb := bits_bound v
  have havg := acquire_raw_average env (get_adc1_channel v pin) n _ h1 hn hb.1 hb.2 hraw
  have hcast : ((n.toNat : Nat) : Int) = n := Int.toNat_of_nonneg (by omega)
  have hfl : floor_average env.adc1_get_raw n.toNat =
      (acquire_raw env (get_adc1_channel v pin) n).1 := by
    rw [floor_average_eq, hcast, havg.1]
  have hu : to_uint32 (acquire_raw env (get_adc1_channel v pin) n).1 =
      (acquire_raw env (get_adc1_channel v pin) n).1.toNat :=
    to_uint32_of_range havg.2.1 (by linarith [havg.2.2, hb.2])
  have hret : (analogReadMillivolts v drv env s pin a n).ret =
      to_int32 (drv.esp_adc_cal_raw_to_voltage
        (floor_average env.adc1_get_raw n.toNat).toNat
        ((analogReadMillivolts v drv env s pin a n).state.deref
          ((analogReadMillivolts v drv env s pin a n).state.adc1_cal_data
            (get_adc1_channel v pin)).adc_chars)) := by
    rw [hfl, ← hu, analogReadMillivolts_ok v drv env s pin a n h hcfg]
    exact to_int32_mod _
  refine ⟨?_, ?_, hret, ?_, by decide, by decide⟩
  · rw [trace_filter_get_raw v drv env s pin a n h hcfg, if_pos h1]
  · rw [trace_filter_raw_to_voltage v drv env s pin a n h hcfg, hfl, hu]
  · intro hlt
    rw [hret]
    exact to_int32_of_range (by omega) (by exact_mod_cast hlt)

/-- Witness of C3: the scripted scenario on the C3, pin 0, from the initial state. -/
theorem C3_oversampled_average_witness :
    (analogReadMillivolts .esp32_c3 identity_driver scripted_ok (State.init Unit) 0
      .ADC_ATTEN_DB_11 4).trace.filter Event.is_get_raw =
      List.replicate (4 : Int).toNat (Event.adc1_get_raw (get_adc1_channel .esp32_c3 0)) :=
  (C3_oversampled_average .esp32_c3 identity_driver scripted_ok (State.init Unit) 0
    .ADC_ATTEN_DB_11 4 (by decide) rfl (by decide) (by decide)
    (by
      intro i hi
      have h4 : i < 4 := by exact_mod_cast hi
      interval_cases i <;> simp [scripted_ok, ADC_WIDTH, adc_bits_width_t.bits])).1

/-! ## C4: oversampling values up to 1 -/

/-- C4: for a valid pin and successful configuration, in every state, an oversampling
value `n <= 1` (1, 0 or negative) gives the very outcome of the same call with
oversampling 1: same returned value, same state, same calls.  Exactly one raw read is
made, on the resolved channel, and the value returned is what the conversion returns
for that sample and the cached block (arguments and result converted as C does:
`int` to `uint32_t`, `uint32_t` to `int`, so the same numbers when the sample is
non-negative and the result below `2^31`). -/
theorem C4_no_oversampling {Chars : Type} (v : Variant) (drv : Driver Chars)
    (env : Responses) (s : State Chars) (pin : Int) (a : adc_atten_t) (n : Int)
    (hpin : valid_pin v pin) (hcfg : env.adc1_config_channel_atten = ESP_OK) (hn : n ≤ 1) :
    analogReadMillivolts v drv env s pin a n = analogReadMillivolts v drv env s pin a 1 ∧
    (analogReadMillivolts v drv env s pin a n).trace.filter Event.is_get_raw =
      [Event.adc1_get_raw (get_adc1_channel v pin)] ∧
    (analogReadMillivolts v drv env s pin a n).trace.filter Event.is_raw_to_voltage =
      [Event.esp_adc_cal_raw_to_voltage (to_uint32 (env.adc1_get_raw 0))
        (((analogReadMillivolts v drv env s pin a n).state.adc1_cal_data
          (get_adc1_channel v pin)).adc_chars)] ∧
    (analogReadMillivolts v drv env s pin a n).ret =
      to_int32 (drv.esp_adc_cal_raw_to_voltage (to_uint32 (env.adc1_get_raw 0))
        ((analogReadMillivolts v drv env s pin a n).state.deref
          ((analogReadMillivolts v drv env s pin a n).state.adc1_cal_data
            (get_adc1_channel v pin)).adc_chars)) ∧
    (0 ≤ env.adc1_get_raw 0 → env.adc1_get_raw 0 < 2 ^ 32 →
      drv.esp_adc_cal_raw_to_voltage (env.adc1_get_raw 0).toNat
        ((analogReadMillivolts v drv env s pin a n).state.deref
          ((analogReadMillivolts v drv env s pin a n).state.adc1_cal_data
            (get_adc1_channel v pin)).adc_chars) < 2 ^ 31 →
      (analogReadMillivolts v drv env s pin a n).ret =
        drv.esp_adc_cal_raw_to_voltage (env.adc1_get_raw 0).toNat
          ((analogReadMillivolts v drv env s pin a n).state.deref
            ((analogReadMillivolts v drv env s pin a n).state.adc1_cal_data
              (get_adc1_channel v pin)).adc_chars)) := by
  have h := get_adc1_channel_ne_of_valid hpin
  have hacq := acquire_raw_single env (get_adc1_channel v pin) n hn
  have hret : (analogReadMillivolts v drv env s pin a n).ret =
      to_int32 (drv.esp_adc_cal_raw_to_voltage (to_uint32 (env.adc1_get_raw 0))
        ((analogReadMillivolts v drv env s pin a n).state.deref
          ((analogReadMillivolts v drv env s pin a n).state.adc1_cal_data
            (get_adc1_channel v pin)).adc_chars)) := by
    rw [analogReadMillivolts_ok v drv env s pin a n h hcfg, hacq]
    exact to_int32_mod _
  refine ⟨?_, ?_, ?_, hret, ?_⟩
  · rw [analogReadMillivolts_ok v drv env s pin a n h hcfg,
      analogReadMillivolts_ok v drv env s pin a 1 h hcfg, hacq,
      acquire_raw_single env (get_adc1_channel v pin) 1 le_rfl]
  · rw [trace_filter_get_raw v drv env s pin a n h hcfg, if_neg (by omega)]
    rfl
  · rw [trace_filter_raw_to_voltage v drv env s pin a n h hcfg, hacq]
  · intro h0 h32 hlt
    rw [hret, to_uint32_of_range h0 h32]
    exact to_int32_of_range (by omega) (by exact_mod_cast hlt)

/-- Witness of C4: oversampling -3 on pin 4 of the S2, from the initial state. -/
theorem C4_no_oversampling_witness :
    analogReadMillivolts .esp32_s2 identity_driver scripted_ok (State.init Unit) 4
        .ADC_ATTEN_DB_6 (-3) =
      analogReadMillivolts .esp32_s2 identity_driver scripted_ok (State.init Unit) 4
        .ADC_ATTEN_DB_6 1 :=
  (C4_no_oversampling .esp32_s2 identity_driver scripted_ok (State.init Unit) 4
    .ADC_ATTEN_DB_6 (-3) (by decide) rfl (by decide)).1

/-! ## C5: when the cache entry is refreshed -/

/-- C5: for a read that gets past pin resolution and driver configuration on channel `c`
with attenuation `a`, in every state: the characterization primitive is invoked if and
only if the entry of `c` is uninitialized or its stored attenuation differs from `a`.
In that case it is invoked exactly once, with `ADC_UNIT_1`, `a`, the width of the
variant (12 bits on the C3, 13 on the S2), 3300, on the block just allocated; afterwards
the entry points to that block, which holds the result of the primitive, the stored
attenuation is `a` and the entry is initialized.  Otherwise the primitive is not invoked,
nothing is freed or allocated, and the whole state is unchanged. -/
theorem C5_refresh_condition {Chars : Type} (v : Variant) (drv : Driver Chars)
    (env : Responses) (s : State Chars) (pin : Int) (a : adc_atten_t) (n : Int)
    (hpin : valid_pin v pin) (hcfg : env.adc1_config_channel_atten = ESP_OK) :
    ((∃ e ∈ (analogReadMillivolts v drv env s pin a n).trace, e.is_characterize = true) ↔
      (s.adc1_cal_initialized (get_adc1_channel v pin) = false ∨
        (s.adc1_cal_data (get_adc1_channel v pin)).current_atten ≠ a)) ∧
    ((s.adc1_cal_initialized (get_adc1_channel v pin) = false ∨
        (s.adc1_cal_data (get_adc1_channel v pin)).current_atten ≠ a) →
      (analogReadMillivolts v drv env s pin a n).trace.filter Event.is_characterize =
        [Event.esp_adc_cal_characterize .ADC_UNIT_1 a (ADC_WIDTH v) 3300 (some s.heap_next)] ∧
      (analogReadMillivolts v drv env s pin a n).trace.filter Event.is_malloc =
        [Event.malloc s.heap_next] ∧
      (analogReadMillivolts v drv env s pin a n).state.adc1_cal_data (get_adc1_channel v pin) =
        { adc_chars := some s.heap_next, current_atten := a } ∧
      (analogReadMillivolts v drv env s pin a n).state.deref (some s.heap_next) =
        some (drv.esp_adc_cal_characterize .ADC_UNIT_1 a (ADC_WIDTH v) 3300) ∧
      (analogReadMillivolts v drv env s pin a n).state.adc1_cal_initialized
        (get_adc1_channel v pin) = true) ∧
    (¬ (s.adc1_cal_initialized (get_adc1_channel v pin) = false ∨
        (s.adc1_cal_data (get_adc1_channel v pin)).current_atten ≠ a) →
      (analogReadMillivolts v drv env s pin a n).trace.filter Event.is_characterize = [] ∧
      (analogReadMillivolts v drv env s pin a n).trace.filter Event.is_free = [] ∧
      (analogReadMillivolts v drv env s pin a n).trace.filter Event.is_malloc = [] ∧
      (analogReadMillivolts v drv env s pin a n).state = s) ∧
    (ADC_WIDTH .esp32_c3).bits = 12 ∧ (ADC_WIDTH .esp32_s2).bits = 13 := by
  have h := get_adc1_channel_ne_of_valid hpin
  have hyes : (s.adc1_cal_initialized (get_adc1_channel v pin) = false ∨
        (s.adc1_cal_data (get_adc1_channel v pin)).current_atten ≠ a) →
      (analogReadMillivolts v drv env s pin a n).trace.filter Event.is_characterize =
        [Event.esp_adc_cal_characterize .ADC_UNIT_1 a (ADC_WIDTH v) 3300 (some s.heap_next)] ∧
      (analogReadMillivolts v drv env s pin a n).trace.filter Event.is_malloc =
        [Event.malloc s.heap_next] ∧
      (analogReadMillivolts v drv env s pin a n).state.adc1_cal_data (get_adc1_channel v pin) =
        { adc_chars := some s.heap_next, current_atten := a } ∧
      (analogReadMillivolts v drv env s pin a n).state.deref (some s.heap_next) =
        some (drv.esp_adc_cal_characterize .ADC_UNIT_1 a (ADC_WIDTH v) 3300) ∧
      (analogReadMillivolts v drv env s pin a n).state.adc1_cal_initialized
        (get_adc1_channel v pin) = true := by
    intro hc
    have hr := (needs_refresh_iff s (get_adc1_channel v pin) a).2 hc
    rw [analogReadMillivolts_ok v drv env s pin a n h hcfg]
    simp only [calibrate_refresh_state v drv s _ a hr, calibrate_refresh_trace v drv s _ a hr,
      acquire_raw_trace]
    refine ⟨?_, ?_, by simp, by simp [State.deref], by simp⟩
    · cases (s.adc1_cal_data (get_adc1_channel v pin)).adc_chars <;>
        simp [List.filter_cons, Event.is_characterize, List.filter_replicate]
    · cases (s.adc1_cal_data (get_adc1_channel v pin)).adc_chars <;>
        simp [List.filter_cons, Event.is_malloc, List.filter_replicate]
  have hno : ¬ (s.adc1_cal_initialized (get_adc1_channel v pin) = false ∨
        (s.adc1_cal_data (get_adc1_channel v pin)).current_atten ≠ a) →
      (analogReadMillivolts v drv env s pin a n).trace.filter Event.is_characterize = [] ∧
      (analogReadMillivolts v drv env s pin a n).trace.filter Event.is_free = [] ∧
      (analogReadMillivolts v drv env s pin a n).trace.filter Event.is_malloc = [] ∧
      (analogReadMillivolts v drv env s pin a n).state = s := by
    intro hc
    have hr : needs_refresh s (get_adc1_channel v pin) a = false := by
      cases hx : needs_refresh s (get_adc1_channel v pin) a
      · rfl
      · exact absurd ((needs_refresh_iff s _ a).1 hx) hc
    rw [analogReadMillivolts_ok v drv env s pin a n h hcfg]
    simp only [calibrate_no_refresh v drv s _ a hr, acquire_raw_trace]
    simp [List.filter_cons, Event.is_characterize, Event.is_free, Event.is_malloc,
      List.filter_replicate]
  refine ⟨⟨?_, ?_⟩, hyes, hno, rfl, rfl⟩
  · rintro ⟨e, he, hch⟩
    by_contra hc
    have hnil := (hno hc).1
    have : e ∈ (analogReadMillivolts v drv env s pin a n).trace.filter Event.is_characterize :=
      List.mem_filter.2 ⟨he, hch⟩
    rw [hnil] at this
    exact absurd this (List.not_mem_nil e)
  · intro hc
    have hone := (hyes hc).1
    have hm : Event.esp_adc_cal_characterize .ADC_UNIT_1 a (ADC_WIDTH v) 3300
        (some s.heap_next) ∈
        (analogReadMillivolts v drv env s pin a n).trace.filter Event.is_characterize := by
      rw [hone]; exact List.mem_singleton.2 rfl
    exact ⟨_, (List.mem_filter.1 hm).1, rfl⟩

/-- Witness of C5: first read of pin 0 on the C3, from the initial state. -/
theorem C5_refresh_condition_witness :
    (analogReadMillivolts .esp32_c3 atten_driver scripted_ok (State.init adc_atten_t) 0
        .ADC_ATTEN_DB_11 4).trace.filter Event.is_characterize =
      [Event.esp_adc_cal_characterize .ADC_UNIT_1 .ADC_ATTEN_DB_11 (ADC_WIDTH .esp32_c3) 3300
        (some (State.init adc_atten_t).heap_next)] :=
  ((C5_refresh_condition .esp32_c3 atten_driver scripted_ok (State.init adc_atten_t) 0
    .ADC_ATTEN_DB_11 4 (by decide) rfl).2.1 (Or.inl rfl)).1

/-! ## C6: change of attenuation on a calibrated channel -/

/-- C6: in a reachable state where the entry of the channel is initialized with stored
attenuation `a`, a read of that channel (valid pin, successful configuration) with an
attenuation `b` other than `a` makes exactly these calls, in this order: the two
configuration calls, `free` of the block held so far (a live block), `malloc` of a new
block (another one), the characterization of the new block for `b`, the raw reads, and
the conversion, which is given the new block.  So the old block is released once, one
block is acquired and characterized, both before the conversion, and the value
returned is the conversion under the characteristics derived for `b`. -/
theorem C6_attenuation_change {Chars : Type} (v : Variant) (drv : Driver Chars)
    (env : Responses) (s : State Chars) (pin : Int) (a b : adc_atten_t) (n : Int)
    (hreach : Reachable v drv s) (hpin : valid_pin v pin)
    (hcfg : env.adc1_config_channel_atten = ESP_OK)
    (hinit : s.adc1_cal_initialized (get_adc1_channel v pin) = true)
    (hstored : (s.adc1_cal_data (get_adc1_channel v pin)).current_atten = a)
    (hne : b ≠ a) :
    ∃ old : Nat,
      (s.adc1_cal_data (get_adc1_channel v pin)).adc_chars = some old ∧
      s.heap_live old = true ∧ old ≠ s.heap_next ∧
      (analogReadMillivolts v drv env s pin b n).trace =
        [Event.adc1_config_width (ADC_WIDTH v),
         Event.adc1_config_channel_atten (get_adc1_channel v pin) b,
         Event.free old,
         Event.malloc s.heap_next,
         Event.esp_adc_cal_characterize .ADC_UNIT_1 b (ADC_WIDTH v) 3300 (some s.heap_next)]
        ++ List.replicate (if 1 < n then n.toNat else 1)
            (Event.adc1_get_raw (get_adc1_channel v pin))
        ++ [Event.esp_adc_cal_raw_to_voltage
              (to_uint32 (acquire_raw env (get_adc1_channel v pin) n).1) (some s.heap_next)] ∧
      (analogReadMillivolts v drv env s pin b n).state.heap_live old = false ∧
      (analogReadMillivolts v drv env s pin b n).state.deref (some s.heap_next) =
        some (drv.esp_adc_cal_characterize .ADC_UNIT_1 b (ADC_WIDTH v) 3300) ∧
      (analogReadMillivolts v drv env s pin b n).ret =
        to_int32 (drv.esp_adc_cal_raw_to_voltage
          (to_uint32 (acquire_raw env (get_adc1_channel v pin) n).1)
          (some (drv.esp_adc_cal_characterize .ADC_UNIT_1 b (ADC_WIDTH v) 3300))) := by
  have h := get_adc1_channel_ne_of_valid hpin
  have hinv := cacheInv_of_reachable hreach
  obtain ⟨old, hold, hlt, hlive, _⟩ := hinv.held _ hinit
  have hr : needs_refresh s (get_adc1_channel v pin) b = true :=
    (needs_refresh_iff s _ b).2 (Or.inr (by rw [hstored]; exact fun e => hne e.symm))
  have hold_ne : old ≠ s.heap_next := Nat.ne_of_lt hlt
  refine ⟨old, hold, hlive, hold_ne, ?_, ?_, ?_, ?_⟩
  · rw [analogReadMillivolts_ok v drv env s pin b n h hcfg]
    simp only [calibrate_refresh_state v drv s _ b hr, calibrate_refresh_trace v drv s _ b hr,
      acquire_raw_trace, hold]
    simp
  · rw [analogReadMillivolts_ok v drv env s pin b n h hcfg]
    simp only [calibrate_refresh_state v drv s _ b hr]
    simp [Function.update_apply, hold_ne, released_live_held s _ old hold]
  · rw [analogReadMillivolts_ok v drv env s pin b n h hcfg]
    simp only [calibrate_refresh_state v drv s _ b hr]
    simp [State.deref]
  · rw [analogReadMillivolts_ok v drv env s pin b n h hcfg]
    simp only [deref_after_calibrate v drv s _ b hinv]
    exact to_int32_mod _

/-- Witness of C6: on the C3, after a read of pin 0 at 0 dB, a read of pin 0 at 11 dB. -/
theorem C6_attenuation_change_witness :
    ∃ old : Nat,
      ((run .esp32_c3 atten_driver (State.init adc_atten_t) [read_pin0_db0]).adc1_cal_data
        (get_adc1_channel .esp32_c3 0)).adc_chars = some old ∧
      (run .esp32_c3 atten_driver (State.init adc_atten_t) [read_pin0_db0]).heap_live old
        = true ∧
      old ≠ (run .esp32_c3 atten_driver (State.init adc_atten_t) [read_pin0_db0]).heap_next ∧
      (analogReadMillivolts .esp32_c3 atten_driver scripted_ok
          (run .esp32_c3 atten_driver (State.init adc_atten_t) [read_pin0_db0]) 0
          .ADC_ATTEN_DB_11 4).trace.filter Event.is_free = [Event.free old] := by
  obtain ⟨old, h1, h2, h3, h4, -⟩ :=
    C6_attenuation_change .esp32_c3 atten_driver scripted_ok
      (run .esp32_c3 atten_driver (State.init adc_atten_t) [read_pin0_db0]) 0
      .ADC_ATTEN_DB_0 .ADC_ATTEN_DB_11 4 ⟨[read_pin0_db0], rfl⟩ (by decide) rfl rfl rfl
      (by decide)
  refine ⟨old, h1, h2, h3, ?_⟩
  rw [h4]
  simp [List.filter_cons, Event.is_free, List.filter_replicate]

/-! ## C7: how often the characterization primitive runs -/

/-- C7, counterexample: on the C3, three successful reads of pin 0 with attenuations
0 dB, 11 dB, 0 dB from the initial state invoke the characterization primitive twice
for the pair (channel 0, 0 dB), not at most once. -/
theorem C7_counterexample :
    characterize_count .esp32_c3 atten_driver 0 .ADC_ATTEN_DB_0 (State.init adc_atten_t)
        [read_pin0_db0, read_pin0_db11, read_pin0_db0] = 2 ∧
    ¬ (characterize_count .esp32_c3 atten_driver 0 .ADC_ATTEN_DB_0 (State.init adc_atten_t)
        [read_pin0_db0, read_pin0_db11, read_pin0_db0] ≤ 1) := by
  constructor <;> decide

/-- C7, amended: over any sequence of calls from the initial state, the number of
invocations of the characterization primitive for a pair (channel, attenuation `a`) is
the number of reads that get past configuration on the channel asking for `a` while the
previous such read on the channel, if any, asked for another attenuation.  In particular
a read asking for the attenuation of the previous configured read on its channel does
not invoke the primitive: the cached calibration is reused. -/
theorem C7_characterize_per_switch {Chars : Type} (v : Variant) (drv : Driver Chars)
    (chan : Int) (a : adc_atten_t) (calls : List Call) :
    characterize_count v drv chan a (State.init Chars) calls =
      attenuation_switches v chan a none calls ∧
    (∀ c : Call, c.configures v chan = true →
      last_configured v chan none calls = some c.attenuation →
      (c.exec v drv (run v drv (State.init Chars) calls)).trace.filter
        Event.is_characterize = []) := by
  refine ⟨characterize_count_eq v drv chan a calls _ none (tracks_init Chars chan), ?_⟩
  intro c hconf hlast
  have ht := tracks_run v drv chan calls (State.init Chars) none (tracks_init Chars chan)
  simp only [Call.configures, Bool.and_eq_true, decide_eq_true_eq] at hconf
  obtain ⟨⟨hch, hne⟩, herr⟩ := hconf
  have hr : needs_refresh (run v drv (State.init Chars) calls) chan c.attenuation = false := by
    cases hx : needs_refresh (run v drv (State.init Chars) calls) chan c.attenuation
    · rfl
    · exact absurd hlast ((tracks_needs_refresh ht c.attenuation).1 hx)
  unfold Call.exec
  exact trace_no_characterize v drv c.env _ c.pin c.attenuation c.oversampling
    (by rw [hch]; exact hne) herr (by rw [hch]; exact hr)

/-- Witness of C7: after reads of pin 0 at 0 dB then 11 dB, a further read at 11 dB does
not characterize. -/
theorem C7_characterize_per_switch_witness :
    (read_pin0_db11.exec .esp32_c3 atten_driver
      (run .esp32_c3 atten_driver (State.init adc_atten_t)
        [read_pin0_db0, read_pin0_db11])).trace.filter Event.is_characterize = [] :=
  (C7_characterize_per_switch .esp32_c3 atten_driver 0 .ADC_ATTEN_DB_11
    [read_pin0_db0, read_pin0_db11]).2 read_pin0_db11 (by decide) (by decide)

/-! ## C8: the cache is transparent -/

/-- C8: in every reachable state, a read that gets past pin resolution and driver
configuration with attenuation `a` hands the conversion a live block holding exactly
`esp_adc_cal_characterize ADC_UNIT_1 a width 3300`, whatever attenuations were used
before, and returns the value the same read (same driver answers) returns from the
initial state. -/
theorem C8_cache_transparent {Chars : Type} (v : Variant) (drv : Driver Chars)
    (env : Responses) (s : State Chars) (pin : Int) (a : adc_atten_t) (n : Int)
    (hreach : Reachable v drv s) (hpin : valid_pin v pin)
    (hcfg : env.adc1_config_channel_atten = ESP_OK) :
    (analogReadMillivolts v drv env s pin a n).state.deref
        ((analogReadMillivolts v drv env s pin a n).state.adc1_cal_data
          (get_adc1_channel v pin)).adc_chars =
      some (drv.esp_adc_cal_characterize .ADC_UNIT_1 a (ADC_WIDTH v) 3300) ∧
    (analogReadMillivolts v drv env s pin a n).trace.filter Event.is_raw_to_voltage =
      [Event.esp_adc_cal_raw_to_voltage
        (to_uint32 (acquire_raw env (get_adc1_channel v pin) n).1)
        (((analogReadMillivolts v drv env s pin a n).state.adc1_cal_data
          (get_adc1_channel v pin)).adc_chars)] ∧
    (analogReadMillivolts v drv env s pin a n).ret =
      to_int32 (drv.esp_adc_cal_raw_to_voltage
        (to_uint32 (acquire_raw env (get_adc1_channel v pin) n).1)
        (some (drv.esp_adc_cal_characterize .ADC_UNIT_1 a (ADC_WIDTH v) 3300))) ∧
    (analogReadMillivolts v drv env s pin a n).ret =
      (analogReadMillivolts v drv env (State.init Chars) pin a n).ret := by
  have h := get_adc1_channel_ne_of_valid hpin
  have hinv := cacheInv_of_reachable hreach
  refine ⟨?_, trace_filter_raw_to_voltage v drv env s pin a n h hcfg,
    analogReadMillivolts_ret_of_inv v drv env s pin a n hinv h hcfg, ?_⟩
  · rw [analogReadMillivolts_ok v drv env s pin a n h hcfg]
    exact deref_after_calibrate v drv s _ a hinv
  · rw [analogReadMillivolts_ret_of_inv v drv env s pin a n hinv h hcfg,
      analogReadMillivolts_ret_of_inv v drv env _ pin a n (cacheInv_init v drv) h hcfg]

/-- Witness of C8: on the C3, a 4-sample read of pin 0 at 11 dB after a read at 0 dB
returns what it returns from the initial state. -/
theorem C8_cache_transparent_witness :
    (analogReadMillivolts .esp32_c3 atten_driver scripted_ok
        (run .esp32_c3 atten_driver (State.init adc_atten_t) [read_pin0_db0]) 0
        .ADC_ATTEN_DB_11 4).ret =
      (analogReadMillivolts .esp32_c3 atten_driver scripted_ok (State.init adc_atten_t) 0
        .ADC_ATTEN_DB_11 4).ret :=
  (C8_cache_transparent .esp32_c3 atten_driver scripted_ok
    (run .esp32_c3 atten_driver (State.init adc_atten_t) [read_pin0_db0]) 0
    .ADC_ATTEN_DB_11 4 ⟨[read_pin0_db0], rfl⟩ (by decide) rfl).2.2.2

/-! ## C9: the cache invariant -/

/-- C9, counterexample: on the C3, after a successful read of pin 0 at 0 dB and a read of
pin 0 at 11 dB whose configuration fails, the entry of channel 0 is initialized, the
attenuation most recently requested on channel 0 is 11 dB, and the stored attenuation
is 0 dB. -/
theorem C9_counterexample :
    (run .esp32_c3 atten_driver (State.init adc_atten_t)
      [read_pin0_db0, failed_pin0_db11]).adc1_cal_initialized 0 = true ∧
    last_requested .esp32_c3 0 none [read_pin0_db0, failed_pin0_db11] =
      some .ADC_ATTEN_DB_11 ∧
    ((run .esp32_c3 atten_driver (State.init adc_atten_t)
      [read_pin0_db0, failed_pin0_db11]).adc1_cal_data 0).current_atten = .ADC_ATTEN_DB_0 ∧
    last_requested .esp32_c3 0 none [read_pin0_db0, failed_pin0_db11] ≠
      some ((run .esp32_c3 atten_driver (State.init adc_atten_t)
        [read_pin0_db0, failed_pin0_db11]).adc1_cal_data 0).current_atten := by
  refine ⟨by decide, by decide, by decide, by decide⟩

/-- C9, amended: in the state reached from the initial one by any sequence of calls
(failing ones included), an entry is initialized exactly when some call got past driver
configuration on its channel; it then holds a non-null pointer to a live block whose
contents are those the characterization primitive derives for the stored attenuation,
and the stored attenuation is the one requested by the most recent call that got past
driver configuration on that channel. -/
theorem C9_cache_invariant {Chars : Type} (v : Variant) (drv : Driver Chars)
    (calls : List Call) (chan : Int)
    (hinit : (run v drv (State.init Chars) calls).adc1_cal_initialized chan = true) :
    (∃ blk : Nat,
      ((run v drv (State.init Chars) calls).adc1_cal_data chan).adc_chars = some blk ∧
      (run v drv (State.init Chars) calls).heap_live blk = true ∧
      (run v drv (State.init Chars) calls).heap_content blk =
        some (drv.esp_adc_cal_characterize .ADC_UNIT_1
          ((run v drv (State.init Chars) calls).adc1_cal_data chan).current_atten
          (ADC_WIDTH v) 3300)) ∧
    last_configured v chan none calls =
      some ((run v drv (State.init Chars) calls).adc1_cal_data chan).current_atten ∧
    (∀ c2 : Int, (run v drv (State.init Chars) calls).adc1_cal_initialized c2 =
      (last_configured v c2 none calls).isSome) := by
  have hinv := cacheInv_run v drv calls _ (cacheInv_init v drv)
  have ht := tracks_run v drv chan calls (State.init Chars) none (tracks_init Chars chan)
  obtain ⟨blk, hb, _, hlive, hcont⟩ := hinv.held chan hinit
  refine ⟨⟨blk, hb, hlive, hcont⟩, ?_, ?_⟩
  · have h1 := ht.1
    rw [hinit] at h1
    cases hl : last_configured v chan none calls with
    | none => rw [hl] at h1; simp at h1
    | some x => rw [ht.2 x hl]
  · intro c2
    exact (tracks_run v drv c2 calls (State.init Chars) none (tracks_init Chars c2)).1

/-- Witness of C9: the state after a successful read of pin 0 at 0 dB and a failed one at
11 dB, channel 0. -/
theorem C9_cache_invariant_witness :
    last_configured .esp32_c3 0 none [read_pin0_db0, failed_pin0_db11] =
      some ((run .esp32_c3 atten_driver (State.init adc_atten_t)
        [read_pin0_db0, failed_pin0_db11]).adc1_cal_data 0).current_atten :=
  (C9_cache_invariant .esp32_c3 atten_driver [read_pin0_db0, failed_pin0_db11] 0
    (by decide)).2.1

/-! ## C10: what a configuration failure tells the caller -/

/-- C10, counterexample: on the C3, two reads of pin 0 that differ only in the failing
status returned by `adc1_config_channel_atten` (258 and -1) return the same value. -/
theorem C10_counterexample :
    (scripted_fail 258).adc1_config_channel_atten ≠ ESP_OK ∧
    (scripted_fail (-1)).adc1_config_channel_atten ≠ ESP_OK ∧
    (scripted_fail 258).adc1_config_channel_atten ≠
      (scripted_fail (-1)).adc1_config_channel_atten ∧
    (analogReadMillivolts .esp32_c3 identity_driver (scripted_fail 258) (State.init Unit) 0
        .ADC_ATTEN_DB_11 4).ret =
      (analogReadMillivolts .esp32_c3 identity_driver (scripted_fail (-1)) (State.init Unit) 0
        .ADC_ATTEN_DB_11 4).ret := by
  refine ⟨by decide, by decide, by decide, by decide⟩

/-- C10, amended: when driver configuration fails, `analogReadMillivolts` returns -1
whatever the status: two failing calls that differ only in what the driver answers both
return -1, hence the same value, and both leave the state as it was, hence the same
state.  The status is passed only to the error log: the calls made are the two
configuration calls and the error log, which comes last and carries the status, and
apart from that log the two calls make the same calls. -/
theorem C10_status_not_returned {Chars : Type} (v : Variant) (drv : Driver Chars)
    (env1 env2 : Responses) (s : State Chars) (pin : Int) (a : adc_atten_t) (n : Int)
    (hpin : valid_pin v pin) (herr1 : env1.adc1_config_channel_atten ≠ ESP_OK)
    (herr2 : env2.adc1_config_channel_atten ≠ ESP_OK) :
    (analogReadMillivolts v drv env1 s pin a n).ret = -1 ∧
    (analogReadMillivolts v drv env2 s pin a n).ret = -1 ∧
    (analogReadMillivolts v drv env1 s pin a n).ret =
      (analogReadMillivolts v drv env2 s pin a n).ret ∧
    (analogReadMillivolts v drv env1 s pin a n).state = s ∧
    (analogReadMillivolts v drv env1 s pin a n).state =
      (analogReadMillivolts v drv env2 s pin a n).state ∧
    (analogReadMillivolts v drv env1 s pin a n).trace =
      [Event.adc1_config_width (ADC_WIDTH v),
       Event.adc1_config_channel_atten (get_adc1_channel v pin) a,
       Event.log_e_config pin env1.adc1_config_channel_atten] ∧
    (analogReadMillivolts v drv env1 s pin a n).trace.getLast? =
      some (Event.log_e_config pin env1.adc1_config_channel_atten) ∧
    (analogReadMillivolts v drv env1 s pin a n).trace.dropLast =
      (analogReadMillivolts v drv env2 s pin a n).trace.dropLast := by
  have h := get_adc1_channel_ne_of_valid hpin
  rw [analogReadMillivolts_config_error v drv env1 s pin a n h herr1,
    analogReadMillivolts_config_error v drv env2 s pin a n h herr2]
  exact ⟨rfl, rfl, rfl, rfl, rfl, rfl, rfl, rfl⟩

/-- Witness of C10: statuses 258 and -1 on pin 0 of the C3, from the initial state. -/
theorem C10_status_not_returned_witness :
    valid_pin .esp32_c3 0 ∧
    (scripted_fail 258).adc1_config_channel_atten ≠ ESP_OK ∧
    (scripted_fail (-1)).adc1_config_channel_atten ≠ ESP_OK ∧
    (analogReadMillivolts .esp32_c3 identity_driver (scripted_fail 258) (State.init Unit) 0
        .ADC_ATTEN_DB_11 4).ret = -1 ∧
    (analogReadMillivolts .esp32_c3 identity_driver (scripted_fail (-1)) (State.init Unit) 0
        .ADC_ATTEN_DB_11 4).ret = -1 :=
  ⟨by decide, by decide, by decide,
   (C10_status_not_returned .esp32_c3 identity_driver (scripted_fail 258) (scripted_fail (-1))
      (State.init Unit) 0 .ADC_ATTEN_DB_11 4 (by decide) (by decide) (by decide)).1,
   (C10_status_not_returned .esp32_c3 identity_driver (scripted_fail 258) (scripted_fail (-1))
      (State.init Unit) 0 .ADC_ATTEN_DB_11 4 (by decide) (by decide) (by decide)).2.1⟩

/-! ## C11: the sentinel -1 -/

/-- C11: when the conversion primitive only returns values below `2^31`, in every state
and for every pin, attenuation, oversampling value and driver answers,
`analogReadMillivolts` returns -1 if and only if the pin is invalid or the driver
configuration failed; on every other call the value returned is non-negative (it is the
value of the conversion). -/
theorem C11_sentinel_sound {Chars : Type} (v : Variant) (drv : Driver Chars)
    (env : Responses) (s : State Chars) (pin : Int) (a : adc_atten_t) (n : Int)
    (hconv : ∀ raw chars, drv.esp_adc_cal_raw_to_voltage raw chars < 2 ^ 31) :
    ((analogReadMillivolts v drv env s pin a n).ret = -1 ↔
      (¬ valid_pin v pin ∨ env.adc1_config_channel_atten ≠ ESP_OK)) ∧
    (valid_pin v pin → env.adc1_config_channel_atten = ESP_OK →
      0 ≤ (analogReadMillivolts v drv env s pin a n).ret ∧
      (analogReadMillivolts v drv env s pin a n).ret =
        drv.esp_adc_cal_raw_to_voltage
          (to_uint32 (acquire_raw env (get_adc1_channel v pin) n).1)
          ((analogReadMillivolts v drv env s pin a n).state.deref
            ((analogReadMillivolts v drv env s pin a n).state.adc1_cal_data
              (get_adc1_channel v pin)).adc_chars)) := by
  have hok : valid_pin v pin → env.adc1_config_channel_atten = ESP_OK →
      0 ≤ (analogReadMillivolts v drv env s pin a n).ret ∧
      (analogReadMillivolts v drv env s pin a n).ret =
        drv.esp_adc_cal_raw_to_voltage
          (to_uint32 (acquire_raw env (get_adc1_channel v pin) n).1)
          ((analogReadMillivolts v drv env s pin a n).state.deref
            ((analogReadMillivolts v drv env s pin a n).state.adc1_cal_data
              (get_adc1_channel v pin)).adc_chars) := by
    intro hpin hcfg
    have h := get_adc1_channel_ne_of_valid hpin
    rw [analogReadMillivolts_ok v drv env s pin a n h hcfg]
    simp only
    rw [to_int32_mod]
    have hlt := hconv (to_uint32 (acquire_raw env (get_adc1_channel v pin) n).1)
      ((calibrate v drv s (get_adc1_channel v pin) a).1.deref
        ((calibrate v drv s (get_adc1_channel v pin) a).1.adc1_cal_data
          (get_adc1_channel v pin)).adc_chars)
    rw [to_int32_of_range (by omega) (by exact_mod_cast hlt)]
    exact ⟨Int.ofNat_nonneg _, rfl⟩
  refine ⟨⟨?_, ?_⟩, hok⟩
  · intro hret
    by_contra hc
    simp only [not_or, not_not] at hc
    have := (hok hc.1 hc.2).1
    omega
  · rintro (hpin | herr)
    · rw [analogReadMillivolts_invalid v drv env s pin a n
        ((get_adc1_channel_eq_neg_one_iff v pin).2 hpin)]
    · by_cases h : get_adc1_channel v pin = -1
      · rw [analogReadMillivolts_invalid v drv env s pin a n h]
      · rw [analogReadMillivolts_config_error v drv env s pin a n h herr]

/-- Witness of C11: the capped conversion, pin 0 of the C3, four samples. -/
theorem C11_sentinel_sound_witness :
    (∀ raw chars, capped_driver.esp_adc_cal_raw_to_voltage raw chars < 2 ^ 31) ∧
    ((analogReadMillivolts .esp32_c3 capped_driver scripted_ok (State.init Unit) 0
        .ADC_ATTEN_DB_11 4).ret = -1 ↔
      (¬ valid_pin .esp32_c3 0 ∨ scripted_ok.adc1_config_channel_atten ≠ ESP_OK)) :=
  ⟨fun raw _ => lt_of_le_of_lt (min_le_right raw 3300) (by norm_num),
   (C11_sentinel_sound .esp32_c3 capped_driver scripted_ok (State.init Unit) 0
      .ADC_ATTEN_DB_11 4
      (fun raw _ => lt_of_le_of_lt (min_le_right raw 3300) (by norm_num))).1⟩

/-! ## C12: the pin table and the array bounds -/

/-- C12: `get_adc1_channel` is defined for every integer pin and returns -1 or an index
of the cache arrays.  On the C3, pins 0..5 give channels 0..5 (pin `p` gives `p`), below
`ADC1_CHANNEL_COUNT = 6`, every other pin gives -1; on the S2, pins 4..10 give channels
1..7 (pin `p` gives `p - 3`), below `ADC1_CHANNEL_COUNT = 10`, every other pin gives -1.
So the index `analogReadMillivolts` uses on `adc1_cal_data` and `adc1_cal_initialized`
is in bounds, and the call leaves every out-of-bounds index as it was. -/
theorem C12_channel_in_bounds {Chars : Type} (v : Variant) (drv : Driver Chars)
    (env : Responses) (s : State Chars) (pin : Int) (a : adc_atten_t) (n : Int) :
    (get_adc1_channel v pin = -1 ∨
      (0 ≤ get_adc1_channel v pin ∧
        get_adc1_channel v pin < (ADC1_CHANNEL_COUNT v : Int))) ∧
    ((0 ≤ pin ∧ pin ≤ 5) → get_adc1_channel .esp32_c3 pin = pin ∧
      get_adc1_channel .esp32_c3 pin < (ADC1_CHANNEL_COUNT .esp32_c3 : Int)) ∧
    (¬ (0 ≤ pin ∧ pin ≤ 5) → get_adc1_channel .esp32_c3 pin = -1) ∧
    ((4 ≤ pin ∧ pin ≤ 10) → get_adc1_channel .esp32_s2 pin = pin - 3 ∧
      1 ≤ get_adc1_channel .esp32_s2 pin ∧ get_adc1_channel .esp32_s2 pin ≤ 7 ∧
      get_adc1_channel .esp32_s2 pin < (ADC1_CHANNEL_COUNT .esp32_s2 : Int)) ∧
    (¬ (4 ≤ pin ∧ pin ≤ 10) → get_adc1_channel .esp32_s2 pin = -1) ∧
    (ADC1_CHANNEL_COUNT .esp32_c3 = 6 ∧ ADC1_CHANNEL_COUNT .esp32_s2 = 10) ∧
    (∀ c : Int, ¬ (0 ≤ c ∧ c < (ADC1_CHANNEL_COUNT v : Int)) →
      (analogReadMillivolts v drv env s pin a n).state.adc1_cal_data c = s.adc1_cal_data c ∧
      (analogReadMillivolts v drv env s pin a n).state.adc1_cal_initialized c =
        s.adc1_cal_initialized c) := by
  have hb : get_adc1_channel v pin = -1 ∨
      (0 ≤ get_adc1_channel v pin ∧
        get_adc1_channel v pin < (ADC1_CHANNEL_COUNT v : Int)) := by
    cases v <;> simp only [get_adc1_channel, ADC1_CHANNEL_COUNT] <;> split_ifs <;> simp
  refine ⟨hb, ?_, ?_, ?_, ?_, ⟨rfl, rfl⟩, ?_⟩
  · intro h
    simp only [get_adc1_channel, ADC1_CHANNEL_COUNT]
    split_ifs <;> omega
  · intro h
    exact (get_adc1_channel_eq_neg_one_iff .esp32_c3 pin).2 h
  · intro h
    simp only [get_adc1_channel, ADC1_CHANNEL_COUNT]
    split_ifs <;> omega
  · intro h
    exact (get_adc1_channel_eq_neg_one_iff .esp32_s2 pin).2 h
  · intro c hc
    rw [analogReadMillivolts_state]
    split_ifs with hp
    · have hne : c ≠ get_adc1_channel v pin := by
        rcases hb with hb | hb
        · exact absurd hb hp.1
        · intro e; rw [e] at hc; exact hc hb
      exact calibrate_other v drv s _ c a hne
    · exact ⟨rfl, rfl⟩

/-- Witness of C12: pin 10 of the S2 resolves to channel 7, below 10. -/
theorem C12_channel_in_bounds_witness :
    get_adc1_channel .esp32_s2 10 = 10 - 3 ∧
      1 ≤ get_adc1_channel .esp32_s2 10 ∧ get_adc1_channel .esp32_s2 10 ≤ 7 ∧
      get_adc1_channel .esp32_s2 10 < (ADC1_CHANNEL_COUNT .esp32_s2 : Int) :=
  (C12_channel_in_bounds .esp32_s2 identity_driver scripted_ok (State.init Unit) 10
    .ADC_ATTEN_DB_0 1).2.2.2.1 (by decide)

/-! ## C13: the fallback branch -/

theorem calibrate_trace_kinds {Chars : Type} (v : Variant) (drv : Driver Chars)
    (s : State Chars) (chan : Int) (a : adc_atten_t) :
    ∀ e ∈ (calibrate v drv s chan a).2,
      e.is_free = true ∨ e.is_malloc = true ∨ e.is_characterize = true := by
  intro e he
  cases hr : needs_refresh s chan a
  · rw [calibrate_no_refresh v drv s chan a hr] at he
    simp at he
  · rw [calibrate_refresh_trace v drv s chan a hr] at he
    cases hp : (s.adc1_cal_data chan).adc_chars <;> rw [hp] at he <;>
      simp only [List.nil_append, List.cons_append, List.mem_cons,
        List.mem_singleton, List.not_mem_nil, or_false] at he
    · rcases he with he | he <;> simp [he, Event.is_malloc, Event.is_characterize]
    · rcases he with he | he | he <;>
        simp [he, Event.is_free, Event.is_malloc, Event.is_characterize]

theorem trace_no_log_w {Chars : Type} (v : Variant) (drv : Driver Chars)
    (env : Responses) (s : State Chars) (pin : Int) (a : adc_atten_t) (n : Int) :
    ∀ e ∈ (analogReadMillivolts v drv env s pin a n).trace, e.is_log_w = false := by
  intro e he
  by_cases h : get_adc1_channel v pin = -1
  · rw [analogReadMillivolts_invalid v drv env s pin a n h] at he
    simp only [List.mem_singleton] at he
    rw [he]; rfl
  · by_cases herr : env.adc1_config_channel_atten = ESP_OK
    · rw [analogReadMillivolts_ok v drv env s pin a n h herr] at he
      simp only [List.mem_append, List.mem_cons, List.mem_singleton, List.not_mem_nil,
        or_false, acquire_raw_trace, List.mem_replicate] at he
      rcases he with ((he | he) | he) | he
      · rcases he with he | he <;> rw [he] <;> rfl
      · rcases calibrate_trace_kinds v drv s _ a e he with hk | hk | hk <;>
          cases e <;> simp_all [Event.is_free, Event.is_malloc, Event.is_characterize,
            Event.is_log_w]
      · rw [he.2]; rfl
      · rw [he]; rfl
    · rw [analogReadMillivolts_config_error v drv env s pin a n h herr] at he
      simp only [List.mem_cons, List.mem_singleton, List.not_mem_nil, or_false] at he
      rcases he with he | he | he <;> rw [he] <;> rfl

theorem run_trace_no_log_w {Chars : Type} (v : Variant) (drv : Driver Chars)
    (calls : List Call) (s : State Chars) :
    ∀ e ∈ run_trace v drv s calls, e.is_log_w = false := by
  induction calls generalizing s with
  | nil => intro e he; simp [run_trace] at he
  | cons c cs ih =>
    intro e he
    rw [run_trace, List.mem_append] at he
    rcases he with he | he
    · exact trace_no_log_w v drv c.env s c.pin c.attenuation c.oversampling e he
    · exact ih _ e he

/-- C13: in every state (reachable or not), whenever `analogReadMillivolts` gets past pin
resolution and driver configuration, the state in which the conversion is chosen has
the entry of the resolved channel initialized with stored attenuation equal to the
requested one; the calibrated conversion is called, once, and its value is returned.
No call ever logs the fallback warning, and neither does any sequence of calls from the
initial state: the fallback branch is never executed. -/
theorem C13_fallback_unreachable {Chars : Type} (v : Variant) (drv : Driver Chars)
    (env : Responses) (s : State Chars) (pin : Int) (a : adc_atten_t) (n : Int) :
    (∀ e ∈ (analogReadMillivolts v drv env s pin a n).trace, e.is_log_w = false) ∧
    (valid_pin v pin → env.adc1_config_channel_atten = ESP_OK →
      (analogReadMillivolts v drv env s pin a n).state.adc1_cal_initialized
        (get_adc1_channel v pin) = true ∧
      ((analogReadMillivolts v drv env s pin a n).state.adc1_cal_data
        (get_adc1_channel v pin)).current_atten = a ∧
      (analogReadMillivolts v drv env s pin a n).trace.filter Event.is_raw_to_voltage =
        [Event.esp_adc_cal_raw_to_voltage
          (to_uint32 (acquire_raw env (get_adc1_channel v pin) n).1)
          (((analogReadMillivolts v drv env s pin a n).state.adc1_cal_data
            (get_adc1_channel v pin)).adc_chars)] ∧
      (analogReadMillivolts v drv env s pin a n).ret =
        to_int32 (drv.esp_adc_cal_raw_to_voltage
          (to_uint32 (acquire_raw env (get_adc1_channel v pin) n).1)
          ((analogReadMillivolts v drv env s pin a n).state.deref
            ((analogReadMillivolts v drv env s pin a n).state.adc1_cal_data
              (get_adc1_channel v pin)).adc_chars))) ∧
    (∀ calls : List Call, ∀ e ∈ run_trace v drv (State.init Chars) calls,
      e.is_log_w = false) := by
  refine ⟨trace_no_log_w v drv env s pin a n, ?_, fun calls =>
    run_trace_no_log_w v drv calls _⟩
  intro hpin hcfg
  have h := get_adc1_channel_ne_of_valid hpin
  refine ⟨?_, ?_, trace_filter_raw_to_voltage v drv env s pin a n h hcfg, ?_⟩
  · rw [analogReadMillivolts_ok v drv env s pin a n h hcfg]
    exact calibrate_initialized v drv s _ a
  · rw [analogReadMillivolts_ok v drv env s pin a n h hcfg]
    exact calibrate_current_atten v drv s _ a
  · rw [analogReadMillivolts_ok v drv env s pin a n h hcfg]
    exact to_int32_mod _

/-- Witness of C13: pin 4 of the S2 at 6 dB from the initial state. -/
theorem C13_fallback_unreachable_witness :
    (analogReadMillivolts .esp32_s2 atten_driver scripted_ok (State.init adc_atten_t) 4
        .ADC_ATTEN_DB_6 4).state.adc1_cal_initialized (get_adc1_channel .esp32_s2 4) = true :=
  ((C13_fallback_unreachable .esp32_s2 atten_driver scripted_ok (State.init adc_atten_t) 4
    .ADC_ATTEN_DB_6 4).2.1 (by decide) rfl).1

/-! ## C14: the fallback formula -/

/-- C14: for a raw value in `[0, maxRaw]`, `maxRaw` being 4095 on the 12-bit variant and
8191 on the 13-bit one (`2^bits - 1`), the product `raw * 3300` fits an `int`, the
fallback formula gives the floor of `raw * 3300 / maxRaw`, which lies in `[0, 3300]`,
does not decrease when `raw` grows, is 3300 at `maxRaw` (4095 and 8191) and 0 at 0. -/
theorem C14_fallback_formula (v : Variant) (raw : Int) (h0 : 0 ≤ raw)
    (h1 : raw ≤ FALLBACK_MAX_RAW v) :
    to_int32 (raw * 3300) = raw * 3300 ∧
    fallback_millivolts v raw =
      ⌊((raw * 3300 : Int) : ℚ) / ((FALLBACK_MAX_RAW v).toNat : ℚ)⌋ ∧
    fallback_millivolts v raw = raw * 3300 / FALLBACK_MAX_RAW v ∧
    0 ≤ fallback_millivolts v raw ∧ fallback_millivolts v raw ≤ 3300 ∧
    (∀ raw2 : Int, raw ≤ raw2 → raw2 ≤ FALLBACK_MAX_RAW v →
      fallback_millivolts v raw ≤ fallback_millivolts v raw2) ∧
    fallback_millivolts v (FALLBACK_MAX_RAW v) = 3300 ∧
    fallback_millivolts v 0 = 0 ∧
    fallback_millivolts .esp32_c3 4095 = 3300 ∧
    fallback_millivolts .esp32_s2 8191 = 3300 ∧
    FALLBACK_MAX_RAW v = 2 ^ (ADC_WIDTH v).bits - 1 := by
  have hmax : FALLBACK_MAX_RAW v = 4095 ∨ FALLBACK_MAX_RAW v = 8191 := by
    cases v <;> simp [FALLBACK_MAX_RAW]
  have hval : ∀ x : Int, 0 ≤ x → x ≤ FALLBACK_MAX_RAW v →
      fallback_millivolts v x = x * 3300 / FALLBACK_MAX_RAW v := by
    intro x hx0 hx1
    unfold fallback_millivolts
    rw [to_int32_of_range (by omega) (by omega),
      Int.tdiv_eq_ediv (by omega) (by omega)]
  have hfl : ⌊((raw * 3300 : Int) : ℚ) / ((FALLBACK_MAX_RAW v).toNat : ℚ)⌋ =
      raw * 3300 / FALLBACK_MAX_RAW v := by
    rw [Rat.floor_intCast_div_natCast, Int.toNat_of_nonneg (by omega)]
  refine ⟨to_int32_of_range (by omega) (by omega), ?_, hval raw h0 h1, ?_, ?_, ?_, ?_, ?_,
    by decide, by decide, ?_⟩
  · rw [hfl, hval raw h0 h1]
  · rw [hval raw h0 h1]; rcases hmax with hm | hm <;> rw [hm] at h1 ⊢ <;> omega
  · rw [hval raw h0 h1]; rcases hmax with hm | hm <;> rw [hm] at h1 ⊢ <;> omega
  · intro raw2 h2 h3
    rw [hval raw h0 h1, hval raw2 (by omega) h3]
    rcases hmax with hm | hm <;> rw [hm] at h1 h3 ⊢ <;> omega
  · rw [hval _ (by omega) le_rfl]
    rcases hmax with hm | hm <;> rw [hm] <;> decide
  · rw [hval 0 le_rfl (by omega)]
    simp
  · cases v <;> simp [FALLBACK_MAX_RAW, ADC_WIDTH, adc_bits_width_t.bits]

/-- Witness of C14: raw value 2048 on the C3. -/
theorem C14_fallback_formula_witness :
    (0 : Int) ≤ 2048 ∧ (2048 : Int) ≤ FALLBACK_MAX_RAW .esp32_c3 ∧
    fallback_millivolts .esp32_c3 2048 = 2048 * 3300 / FALLBACK_MAX_RAW .esp32_c3 :=
  ⟨by decide, by decide, (C14_fallback_formula .esp32_c3 2048 (by decide) (by decide)).2.2.1⟩

/-! ## C15: the accumulator and the average -/

/-- Running the loop for `k + m` iterations is running it for `k` iterations and going on
for `m` more from the counter, accumulator and trace reached. -/
theorem oversample_loop_split (raws : Nat → Int) (chan : Int) (k m i : Nat) (sum : Int)
    (t : List Event) :
    oversample_loop raws chan (k + m) i sum t =
      oversample_loop raws chan m (i + k) (oversample_loop raws chan k i sum t).1
        (oversample_loop raws chan k i sum t).2 := by
  induction k generalizing i sum t with
  | zero => simp [oversample_loop]
  | succ k ih =>
    rw [Nat.add_right_comm, oversample_loop, ih, oversample_loop,
      Nat.add_assoc i 1 k, Nat.add_comm 1 k]

theorem sum_range_between (f : Nat → Int) (lo hi : Int) (k : Nat)
    (h : ∀ j : Nat, j < k → lo ≤ f j ∧ f j ≤ hi) :
    (k : Int) * lo ≤ ∑ j ∈ Finset.range k, f j ∧ ∑ j ∈ Finset.range k, f j ≤ (k : Int) * hi := by
  induction k with
  | zero => simp
  | succ k ih =>
    have hk := h k (Nat.lt_succ_self k)
    have ih2 := ih (fun j hj => h j (Nat.lt_succ_of_lt hj))
    rw [Finset.sum_range_succ]
    have e1 : ((k + 1 : Nat) : Int) * lo = (k : Int) * lo + lo := by push_cast; ring
    have e2 : ((k + 1 : Nat) : Int) * hi = (k : Int) * hi + hi := by push_cast; ring
    rw [e1, e2]
    exact ⟨by linarith [ih2.1, hk.1], by linarith [ih2.2, hk.2]⟩

/-- With samples of absolute value at most `b` and room for `k * b` on both sides of the
accumulator, the accumulator of the loop is the exact sum. -/
theorem oversample_loop_sum_signed (raws : Nat → Int) (chan : Int) (b : Int) (k i : Nat)
    (sum : Int) (t : List Event) (hb : 0 ≤ b) (hlo : -(2 ^ 63) ≤ sum - (k : Int) * b)
    (hhi : sum + (k : Int) * b < 2 ^ 63)
    (hraw : ∀ j : Nat, j < k → -b ≤ raws (i + j) ∧ raws (i + j) ≤ b) :
    (oversample_loop raws chan k i sum t).1 = sum + ∑ j ∈ Finset.range k, raws (i + j) := by
  induction k generalizing i sum t with
  | zero => simp [oversample_loop]
  | succ k ih =>
    have h0 := hraw 0 (Nat.succ_pos k)
    simp only [Nat.add_zero] at h0
    have hk : ((k + 1 : Nat) : Int) * b = (k : Int) * b + b := by push_cast; ring
    have hkb : 0 ≤ (k : Int) * b := mul_nonneg (Int.ofNat_nonneg k) hb
    rw [hk] at hlo hhi
    have hw : to_int64 (sum + raws i) = sum + raws i :=
      to_int64_of_range (by linarith [h0.1]) (by linarith [h0.2])
    rw [oversample_loop, hw, ih (i + 1) (sum + raws i) _ (by linarith [h0.1])
      (by linarith [h0.2])]
    · rw [Finset.sum_range_succ']
      have : ∀ j, raws (i + 1 + j) = raws (i + (j + 1)) := fun j => by
        rw [Nat.add_assoc, Nat.add_comm 1 j]
      simp only [this, Nat.add_zero]
      ring
    · intro j hj
      have := hraw (j + 1) (Nat.succ_lt_succ hj)
      rwa [Nat.add_assoc, Nat.add_comm 1 j]

/-- C15: for an oversampling count `n` with `1 < n <= 2^31 - 1` and raw samples in
`[0, 2^resolution - 1]`: the `long long` accumulator after any number `k <= n` of
iterations (the loop for `n` iterations passes through it) is the exact sum of the first
`k` samples, non-negative and below `2^63`; the average `sum / n` lies between any lower
and upper bound of the samples, hence in `[0, 2^resolution - 1]`; and storing it in the
`int` `raw_adc` does not change it. -/
theorem C15_accumulator_no_overflow (v : Variant) (env : Responses) (chan : Int) (n : Int)
    (h1 : 1 < n) (hn : n ≤ 2 ^ 31 - 1)
    (hraw : ∀ i : Nat, (i : Int) < n →
      0 ≤ env.adc1_get_raw i ∧ env.adc1_get_raw i ≤ 2 ^ (ADC_WIDTH v).bits - 1) :
    (∀ k m : Nat, k + m = n.toNat →
      oversample_loop env.adc1_get_raw chan n.toNat 0 0 [] =
        oversample_loop env.adc1_get_raw chan m k
          (oversample_loop env.adc1_get_raw chan k 0 0 []).1
          (oversample_loop env.adc1_get_raw chan k 0 0 []).2 ∧
      (oversample_loop env.adc1_get_raw chan k 0 0 []).1 =
        ∑ j ∈ Finset.range k, env.adc1_get_raw j ∧
      0 ≤ ∑ j ∈ Finset.range k, env.adc1_get_raw j ∧
      ∑ j ∈ Finset.range k, env.adc1_get_raw j < 2 ^ 63) ∧
    (∀ lo hi : Int,
      (∀ i : Nat, (i : Int) < n → lo ≤ env.adc1_get_raw i ∧ env.adc1_get_raw i ≤ hi) →
      lo ≤ (acquire_raw env chan n).1 ∧ (acquire_raw env chan n).1 ≤ hi) ∧
    (0 ≤ (acquire_raw env chan n).1 ∧
      (acquire_raw env chan n).1 ≤ 2 ^ (ADC_WIDTH v).bits - 1) ∧
    (acquire_raw env chan n).1 =
      Int.tdiv (∑ j ∈ Finset.range n.toNat, env.adc1_get_raw j) n ∧
    to_int32 (Int.tdiv (∑ j ∈ Finset.range n.toNat, env.adc1_get_raw j) n) =
      Int.tdiv (∑ j ∈ Finset.range n.toNat, env.adc1_get_raw j) n := by
  have hb := bits_bound v
  have hcast : ((n.toNat : Nat) : Int) = n := Int.toNat_of_nonneg (by omega)
  have havg := acquire_raw_average env chan n _ h1 (by omega) hb.1 hb.2 hraw
  have hsum0 := sum_range_bounds env.adc1_get_raw _ n.toNat
    (fun j hj => hraw j (by omega))
  have htdiv : Int.tdiv (∑ j ∈ Finset.range n.toNat, env.adc1_get_raw j) n =
      (∑ j ∈ Finset.range n.toNat, env.adc1_get_raw j) / n :=
    Int.tdiv_eq_ediv hsum0.1 (by omega)
  refine ⟨?_, ?_, havg.2, ?_, ?_⟩
  · intro k m hkm
    have hk : ∀ j : Nat, j < k →
        0 ≤ env.adc1_get_raw j ∧ env.adc1_get_raw j ≤ 2 ^ (ADC_WIDTH v).bits - 1 :=
      fun j hj => hraw j (by omega)
    have hkb := sum_range_bounds env.adc1_get_raw _ k hk
    have hkn : (k : Int) ≤ 2 ^ 31 := by omega
    have hprod : (k : Int) * (2 ^ (ADC_WIDTH v).bits - 1) < 2 ^ 63 := by
      have : (k : Int) * (2 ^ (ADC_WIDTH v).bits - 1) ≤ 2 ^ 31 * 2 ^ 31 :=
        mul_le_mul hkn (le_of_lt hb.2) hb.1 (by norm_num)
      linarith
    have hs := oversample_loop_sum env.adc1_get_raw chan _ k 0 0 [] hb.1 le_rfl
      (by linarith) (by simpa using hk)
    simp only [Nat.zero_add, zero_add] at hs
    refine ⟨?_, hs, hkb.1, by linarith [hkb.2]⟩
    rw [← hkm, oversample_loop_split, Nat.zero_add]
  · intro lo hi hlh
    have hbt := sum_range_between env.adc1_get_raw lo hi n.toNat
      (fun j hj => hlh j (by omega))
    rw [hcast] at hbt
    rw [havg.1]
    exact ⟨Int.le_ediv_of_mul_le (by omega) (by linarith [hbt.1, mul_comm lo n]),
      Int.ediv_le_of_le_mul (by omega) (by linarith [hbt.2, mul_comm hi n])⟩
  · rw [htdiv]; exact havg.1
  · rw [htdiv, ← havg.1]
    exact to_int32_of_range (by linarith [havg.2.1]) (by linarith [havg.2.2, hb.2])

/-- Witness of C15: the four scripted samples on the C3. -/
theorem C15_accumulator_no_overflow_witness :
    (0 : Int) ≤ (acquire_raw scripted_ok 0 4).1 ∧
      (acquire_raw scripted_ok 0 4).1 ≤ 2 ^ (ADC_WIDTH .esp32_c3).bits - 1 :=
  (C15_accumulator_no_overflow .esp32_c3 scripted_ok 0 4 (by decide) (by decide)
    (by
      intro i hi
      have h4 : i < 4 := by exact_mod_cast hi
      interval_cases i <;> simp [scripted_ok, ADC_WIDTH, adc_bits_width_t.bits])).2.2.1

/-! ## C16: the average of arbitrary samples -/

/-- For a negative dividend that the positive divisor does not divide, the quotient
truncated toward zero is one more than the floor. -/
theorem tdiv_eq_ediv_add_one {a n : Int} (ha : a < 0) (hn : 0 < n) (hd : ¬ n ∣ a) :
    a.tdiv n = a / n + 1 := by
  have hr : a % n ≠ 0 := fun h => hd (Int.dvd_of_emod_eq_zero h)
  have hr0 := Int.emod_nonneg a (ne_of_gt hn)
  have hr1 := Int.emod_lt_of_pos a hn
  have hdecomp := Int.emod_add_ediv a n
  have hq : (-a) / n = -(a / n) - 1 :=
    ((Int.ediv_emod_unique hn).2
      ⟨(by linear_combination (-1 : Int) * hdecomp :
        (n - a % n) + n * (-(a / n) - 1) = -a), by omega, by omega⟩).1
  have hneg : a.tdiv n = -((-a).tdiv n) := by rw [Int.neg_tdiv, neg_neg]
  rw [hneg, Int.tdiv_eq_ediv (by omega) (by omega), hq]
  ring

/-- C16, counterexample: with the two samples -1 and 0 and an oversampling count of 2, the
loop computes the average 0, while the floor of the mean -1/2 is -1. -/
theorem C16_counterexample :
    (acquire_raw scripted_negative 0 2).1 = 0 ∧
    floor_average scripted_negative.adc1_get_raw 2 = -1 ∧
    (acquire_raw scripted_negative 0 2).1 ≠ floor_average scripted_negative.adc1_get_raw 2 := by
  have h1 : (acquire_raw scripted_negative 0 2).1 = 0 := by decide
  have h2 : floor_average scripted_negative.adc1_get_raw 2 = -1 := by
    rw [floor_average_eq]
    simp [Finset.sum_range_succ, scripted_negative]
  refine ⟨h1, h2, ?_⟩
  rw [h1, h2]
  decide

/-- C16, amended: for an oversampling count `n > 1` (an `int`) and any `int` samples,
negative ones included, the accumulator holds their exact sum and the average computed
by the loop is that sum divided by `n` with truncation toward zero, as C divides.  It is
the floor of the mean when the sum is non-negative (so for non-negative samples), and
the floor plus one when the sum is negative and not a multiple of `n`. -/
theorem C16_truncated_average (env : Responses) (chan : Int) (n : Int)
    (h1 : 1 < n) (hn : n < 2 ^ 31)
    (hraw : ∀ i : Nat, (i : Int) < n →
      -(2 ^ 31) ≤ env.adc1_get_raw i ∧ env.adc1_get_raw i < 2 ^ 31) :
    (oversample_loop env.adc1_get_raw chan n.toNat 0 0 []).1 =
      ∑ j ∈ Finset.range n.toNat, env.adc1_get_raw j ∧
    (acquire_raw env chan n).1 =
      Int.tdiv (∑ j ∈ Finset.range n.toNat, env.adc1_get_raw j) n ∧
    (0 ≤ ∑ j ∈ Finset.range n.toNat, env.adc1_get_raw j →
      (acquire_raw env chan n).1 = floor_average env.adc1_get_raw n.toNat) ∧
    (∑ j ∈ Finset.range n.toNat, env.adc1_get_raw j < 0 →
      ¬ n ∣ ∑ j ∈ Finset.range n.toNat, env.adc1_get_raw j →
      (acquire_raw env chan n).1 = floor_average env.adc1_get_raw n.toNat + 1) := by
  have hcast : ((n.toNat : Nat) : Int) = n := Int.toNat_of_nonneg (by omega)
  have hraw2 : ∀ j : Nat, j < n.toNat →
      -(2 ^ 31) ≤ env.adc1_get_raw j ∧ env.adc1_get_raw j ≤ 2 ^ 31 :=
    fun j hj => ⟨(hraw j (by omega)).1, le_of_lt (hraw j (by omega)).2⟩
  have hbt := sum_range_between env.adc1_get_raw (-(2 ^ 31)) (2 ^ 31 - 1) n.toNat
    (fun j hj => ⟨(hraw j (by omega)).1, by have := (hraw j (by omega)).2; omega⟩)
  rw [hcast] at hbt
  have hs := oversample_loop_sum_signed env.adc1_get_raw chan (2 ^ 31) n.toNat 0 0 []
    (by norm_num) (by rw [hcast]; nlinarith) (by rw [hcast]; nlinarith)
    (by simpa using hraw2)
  simp only [Nat.zero_add, zero_add] at hs
  have hfloor_lo : -(2 ^ 31) ≤ (∑ j ∈ Finset.range n.toNat, env.adc1_get_raw j) / n :=
    Int.le_ediv_of_mul_le (by omega) (by linarith [hbt.1, mul_comm (-(2 ^ 31) : Int) n])
  have hfloor_hi : (∑ j ∈ Finset.range n.toNat, env.adc1_get_raw j) / n ≤ 2 ^ 31 - 1 :=
    Int.ediv_le_of_le_mul (by omega) (by linarith [hbt.2, mul_comm (2 ^ 31 - 1 : Int) n])
  have hrange : -(2 ^ 31) ≤ Int.tdiv (∑ j ∈ Finset.range n.toNat, env.adc1_get_raw j) n ∧
      Int.tdiv (∑ j ∈ Finset.range n.toNat, env.adc1_get_raw j) n < 2 ^ 31 := by
    by_cases hpos : 0 ≤ ∑ j ∈ Finset.range n.toNat, env.adc1_get_raw j
    · rw [Int.tdiv_eq_ediv hpos (by omega)]
      exact ⟨hfloor_lo, by omega⟩
    · by_cases hd : n ∣ ∑ j ∈ Finset.range n.toNat, env.adc1_get_raw j
      · rw [Int.tdiv_eq_ediv_of_dvd hd]
        exact ⟨hfloor_lo, by omega⟩
      · rw [tdiv_eq_ediv_add_one (by omega) (by omega) hd]
        have hneg : (∑ j ∈ Finset.range n.toNat, env.adc1_get_raw j) / n < 0 :=
          Int.ediv_neg' (by omega) (by omega)
        exact ⟨by omega, by omega⟩
  have hval : (acquire_raw env chan n).1 =
      Int.tdiv (∑ j ∈ Finset.range n.toNat, env.adc1_get_raw j) n := by
    unfold acquire_raw
    rw [if_pos h1]
    simp only [hs]
    exact to_int32_of_range hrange.1 hrange.2
  refine ⟨hs, hval, ?_, ?_⟩
  · intro hpos
    rw [hval, floor_average_eq, hcast, Int.tdiv_eq_ediv hpos (by omega)]
  · intro hlt hd
    rw [hval, floor_average_eq, hcast, tdiv_eq_ediv_add_one hlt (by omega) hd]

/-- Witness of C16: the samples -1 and 0 with an oversampling count of 2. -/
theorem C16_truncated_average_witness :
    (acquire_raw scripted_negative 0 2).1 =
      Int.tdiv (∑ j ∈ Finset.range (2 : Int).toNat, scripted_negative.adc1_get_raw j) 2 :=
  (C16_truncated_average scripted_negative 0 2 (by decide) (by decide)
    (by
      intro i hi
      have h2 : i < 2 := by exact_mod_cast hi
      interval_cases i <;> simp [scripted_negative])).2.1

/-! ## C17: the first read on a channel -/

/-- C17: in the initial state every cache entry is uninitialized, with a null pointer and
the zero attenuation `ADC_ATTEN_DB_0`.  After any sequence of calls from the initial
state during which no call got past driver configuration on a channel, a read that gets
past pin resolution and driver configuration on that channel invokes the
characterization primitive exactly once, on the block it allocates, and frees nothing,
for every attenuation, `ADC_ATTEN_DB_0` included: the entry is uninitialized, and the
test of the flag alone triggers the refresh. -/
theorem C17_first_read {Chars : Type} (v : Variant) (drv : Driver Chars)
    (calls : List Call) (env : Responses) (pin : Int) (a : adc_atten_t) (n : Int)
    (hpin : valid_pin v pin) (hcfg : env.adc1_config_channel_atten = ESP_OK)
    (hfirst : last_configured v (get_adc1_channel v pin) none calls = none) :
    (∀ c : Int, (State.init Chars).adc1_cal_initialized c = false ∧
      ((State.init Chars).adc1_cal_data c).adc_chars = none ∧
      ((State.init Chars).adc1_cal_data c).current_atten = .ADC_ATTEN_DB_0) ∧
    (run v drv (State.init Chars) calls).adc1_cal_initialized (get_adc1_channel v pin) = false ∧
    needs_refresh (run v drv (State.init Chars) calls) (get_adc1_channel v pin) a = true ∧
    (analogReadMillivolts v drv env (run v drv (State.init Chars) calls) pin a n).trace.filter
        Event.is_characterize =
      [Event.esp_adc_cal_characterize .ADC_UNIT_1 a (ADC_WIDTH v) 3300
        (some (run v drv (State.init Chars) calls).heap_next)] ∧
    (analogReadMillivolts v drv env (run v drv (State.init Chars) calls) pin a n).trace.filter
        Event.is_malloc = [Event.malloc (run v drv (State.init Chars) calls).heap_next] ∧
    (analogReadMillivolts v drv env (run v drv (State.init Chars) calls) pin a n).trace.filter
        Event.is_free = [] := by
  have h := get_adc1_channel_ne_of_valid hpin
  have hinv := cacheInv_run v drv calls _ (cacheInv_init v drv)
  have ht := tracks_run v drv (get_adc1_channel v pin) calls (State.init Chars) none
    (tracks_init Chars _)
  rw [hfirst] at ht
  have hun : (run v drv (State.init Chars) calls).adc1_cal_initialized
      (get_adc1_channel v pin) = false := by simpa using ht.1
  have hr : needs_refresh (run v drv (State.init Chars) calls) (get_adc1_channel v pin) a
      = true := (needs_refresh_iff _ _ a).2 (Or.inl hun)
  have hnull := hinv.null _ hun
  refine ⟨fun c => ⟨rfl, rfl, rfl⟩, hun, hr, ?_, ?_, ?_⟩ <;>
    rw [analogReadMillivolts_ok v drv env _ pin a n h hcfg] <;>
    simp only [calibrate_refresh_trace v drv _ _ a hr, acquire_raw_trace, hnull] <;>
    simp [List.filter_cons, Event.is_characterize, Event.is_malloc, Event.is_free,
      List.filter_replicate]

/-- Witness of C17: on the C3, the first read of pin 0 with attenuation `ADC_ATTEN_DB_0`,
after a read of pin 1 and a failed read of pin 0. -/
theorem C17_first_read_witness :
    (analogReadMillivolts .esp32_c3 atten_driver scripted_ok
        (run .esp32_c3 atten_driver (State.init adc_atten_t) [read_pin1_db6, failed_pin0_db11])
        0 .ADC_ATTEN_DB_0 1).trace.filter Event.is_characterize =
      [Event.esp_adc_cal_characterize .ADC_UNIT_1 .ADC_ATTEN_DB_0 (ADC_WIDTH .esp32_c3) 3300
        (some (run .esp32_c3 atten_driver (State.init adc_atten_t)
          [read_pin1_db6, failed_pin0_db11]).heap_next)] :=
  (C17_first_read .esp32_c3 atten_driver [read_pin1_db6, failed_pin0_db11] scripted_ok 0
    .ADC_ATTEN_DB_0 1 (by decide) rfl (by decide)).2.2.2.1

/-! ## C18: blocks acquired, blocks released -/

theorem get_adc1_channel_range (v : Variant) (pin : Int) (h : get_adc1_channel v pin ≠ -1) :
    0 ≤ get_adc1_channel v pin ∧ get_adc1_channel v pin < (ADC1_CHANNEL_COUNT v : Int) := by
  revert h
  cases v <;> simp only [get_adc1_channel, ADC1_CHANNEL_COUNT] <;> split_ifs <;> simp

theorem countP_update_true (f : Int → Bool) (k : Nat) (hf : f (k : Int) = false)
    (l : List Nat) (hnd : l.Nodup) :
    l.countP (fun i : Nat => Function.update f (k : Int) true (i : Int)) =
      l.countP (fun i : Nat => f (i : Int)) + (if k ∈ l then 1 else 0) := by
  induction l with
  | nil => simp
  | cons x xs ih =>
    have hnd2 := List.nodup_cons.1 hnd
    rw [List.countP_cons, List.countP_cons, ih hnd2.2]
    by_cases hx : x = k
    · subst hx
      simp [hf, hnd2.1]
    · have hxi : (x : Int) ≠ (k : Int) := by exact_mod_cast hx
      have hkx : ¬ k = x := fun e => hx e.symm
      simp only [Function.update_apply, if_neg hxi, List.mem_cons, hkx, false_or]
      omega

theorem initialized_count_calibrate {Chars : Type} (v : Variant) (drv : Driver Chars)
    (s : State Chars) (chan : Int) (a : adc_atten_t)
    (h0 : 0 ≤ chan) (h1 : chan < (ADC1_CHANNEL_COUNT v : Int)) :
    initialized_count v (calibrate v drv s chan a).1 =
      initialized_count v s + (if s.adc1_cal_initialized chan = true then 0 else 1) := by
  cases hr : needs_refresh s chan a
  · rw [calibrate_no_refresh v drv s chan a hr,
      if_pos ((needs_refresh_false_iff s chan a).1 hr).1]
    rfl
  · rw [calibrate_refresh_state v drv s chan a hr]
    unfold initialized_count
    simp only
    cases hi : s.adc1_cal_initialized chan
    · have hk : ((chan.toNat : Nat) : Int) = chan := Int.toNat_of_nonneg h0
      have hf : s.adc1_cal_initialized ((chan.toNat : Nat) : Int) = false := by rw [hk, hi]
      have := countP_update_true s.adc1_cal_initialized chan.toNat hf
        (List.range (ADC1_CHANNEL_COUNT v)) (List.nodup_range _)
      rw [hk] at this
      rw [this, if_pos (List.mem_range.2 (by omega))]
      simp
    · have : Function.update s.adc1_cal_initialized chan true = s.adc1_cal_initialized := by
        rw [← hi]; exact Function.update_eq_self chan _
      rw [this]
      simp

theorem call_balance {Chars : Type} (v : Variant) (drv : Driver Chars)
    (env : Responses) (s : State Chars) (pin : Int) (a : adc_atten_t) (n : Int)
    (hinv : CacheInv v drv s) :
    (analogReadMillivolts v drv env s pin a n).trace.countP Event.is_malloc +
        initialized_count v s =
      (analogReadMillivolts v drv env s pin a n).trace.countP Event.is_free +
        initialized_count v (analogReadMillivolts v drv env s pin a n).state := by
  by_cases h : get_adc1_channel v pin = -1
  · rw [analogReadMillivolts_invalid v drv env s pin a n h]
    simp [List.countP_cons, Event.is_malloc, Event.is_free]
  · by_cases herr : env.adc1_config_channel_atten = ESP_OK
    · have hrange := get_adc1_channel_range v pin h
      rw [analogReadMillivolts_ok v drv env s pin a n h herr]
      simp only
      rw [initialized_count_calibrate v drv s _ a hrange.1 hrange.2]
      cases hr : needs_refresh s (get_adc1_channel v pin) a
      · rw [if_pos ((needs_refresh_false_iff s _ a).1 hr).1]
        simp only [calibrate_no_refresh v drv s _ a hr, acquire_raw_trace]
        simp [List.countP_cons, List.countP_append, List.countP_replicate, Event.is_malloc,
          Event.is_free]
      · simp only [calibrate_refresh_trace v drv s _ a hr, acquire_raw_trace]
        cases hp : (s.adc1_cal_data (get_adc1_channel v pin)).adc_chars with
        | none =>
          have hi : s.adc1_cal_initialized (get_adc1_channel v pin) = false := by
            cases hx : s.adc1_cal_initialized (get_adc1_channel v pin)
            · rfl
            · obtain ⟨b, hb, _⟩ := hinv.held _ hx
              rw [hp] at hb
              exact absurd hb (by simp)
          simp [List.countP_cons, List.countP_append, List.countP_replicate, Event.is_malloc,
            Event.is_free, hi]
          omega
        | some old =>
          have hi := (hinv.lt_next hp).2.1
          simp [List.countP_cons, List.countP_append, List.countP_replicate, Event.is_malloc,
            Event.is_free, hi]
    · rw [analogReadMillivolts_config_error v drv env s pin a n h herr]
      simp [List.countP_cons, Event.is_malloc, Event.is_free]

theorem run_balance {Chars : Type} (v : Variant) (drv : Driver Chars)
    (calls : List Call) (s : State Chars) (hinv : CacheInv v drv s) :
    (run_trace v drv s calls).countP Event.is_malloc + initialized_count v s =
      (run_trace v drv s calls).countP Event.is_free +
        initialized_count v (run v drv s calls) := by
  induction calls generalizing s with
  | nil => simp [run_trace, run]
  | cons c cs ih =>
    have hstep := call_balance v drv c.env s c.pin c.attenuation c.oversampling hinv
    have hrest := ih _ (cacheInv_step v drv c.env s c.pin c.attenuation c.oversampling hinv)
    rw [run_trace, run, List.countP_append, List.countP_append]
    unfold Call.exec at *
    omega

theorem initialized_in_range_run {Chars : Type} (v : Variant) (drv : Driver Chars)
    (calls : List Call) (s : State Chars)
    (hs : ∀ c, s.adc1_cal_initialized c = true → 0 ≤ c ∧ c < (ADC1_CHANNEL_COUNT v : Int)) :
    ∀ c, (run v drv s calls).adc1_cal_initialized c = true →
      0 ≤ c ∧ c < (ADC1_CHANNEL_COUNT v : Int) := by
  induction calls generalizing s with
  | nil => exact hs
  | cons x xs ih =>
    apply ih
    intro c hc
    unfold Call.exec at hc
    rw [analogReadMillivolts_state] at hc
    split_ifs at hc with hp
    · by_cases hcc : c = get_adc1_channel v x.pin
      · rw [hcc]; exact get_adc1_channel_range v x.pin hp.1
      · rw [(calibrate_other v drv s _ c x.attenuation hcc).2] at hc
        exact hs c hc
    · exact hs c hc

theorem freed_blocks_append (t1 t2 : List Event) :
    freed_blocks (t1 ++ t2) = freed_blocks t1 ++ freed_blocks t2 := by
  induction t1 with
  | nil => rfl
  | cons e t ih => cases e <;> simp [freed_blocks, ih]

theorem mem_freed_blocks (t : List Event) (b : Nat) :
    b ∈ freed_blocks t ↔ Event.free b ∈ t := by
  induction t with
  | nil => simp [freed_blocks]
  | cons e t ih => cases e <;> simp [freed_blocks, ih]

theorem released_for_good_append (t1 t2 : List Event) :
    released_for_good (t1 ++ t2) = true ↔
      released_for_good t1 = true ∧ released_for_good t2 = true ∧
        ∀ b ∈ freed_blocks t1, ∀ e ∈ t2, e.uses b = false := by
  induction t1 with
  | nil => simp [released_for_good, freed_blocks]
  | cons e t ih =>
    cases e
    case free b =>
      have e1 : released_for_good (Event.free b :: t ++ t2) =
          ((t ++ t2).all (fun e => !e.uses b) && released_for_good (t ++ t2)) := rfl
      have e2 : released_for_good (Event.free b :: t) =
          (t.all (fun e => !e.uses b) && released_for_good t) := rfl
      have e3 : freed_blocks (Event.free b :: t) = b :: freed_blocks t := rfl
      rw [e1, e2, e3]
      simp only [Bool.and_eq_true, List.all_eq_true, List.mem_append, List.mem_cons,
        Bool.not_eq_true', ih]
      constructor
      · rintro ⟨hall, h1, h2, h3⟩
        refine ⟨⟨fun x hx => hall x (Or.inl hx), h1⟩, h2, ?_⟩
        intro b2 hb2 x hx
        rcases hb2 with hb2 | hb2
        · rw [hb2]; exact hall x (Or.inr hx)
        · exact h3 b2 hb2 x hx
      · rintro ⟨⟨hall, h1⟩, h2, h3⟩
        refine ⟨?_, h1, h2, fun b2 hb2 x hx => h3 b2 (Or.inr hb2) x hx⟩
        intro x hx
        rcases hx with hx | hx
        · exact hall x hx
        · exact h3 b (Or.inl rfl) x hx
    all_goals exact ih

theorem released_for_good_of_no_free (t : List Event) (h : ∀ e ∈ t, e.is_free = false) :
    freed_blocks t = [] ∧ released_for_good t = true := by
  induction t with
  | nil => exact ⟨rfl, rfl⟩
  | cons e t ih =>
    have ht := ih (fun x hx => h x (List.mem_cons_of_mem e hx))
    have he := h e (List.mem_cons_self e t)
    cases e <;> simp_all [freed_blocks, released_for_good, Event.is_free]

theorem freed_blocks_nodup (t : List Event) (h : released_for_good t = true) :
    (freed_blocks t).Nodup := by
  induction t with
  | nil => simp [freed_blocks]
  | cons e t ih =>
    cases e <;> simp only [released_for_good, freed_blocks] at h ⊢
    case free b =>
      simp only [Bool.and_eq_true, List.all_eq_true, Bool.not_eq_true'] at h
      refine List.nodup_cons.2 ⟨?_, ih h.2⟩
      intro hb
      have := h.1 _ ((mem_freed_blocks t b).1 hb)
      simp [Event.uses] at this
    all_goals exact ih h

theorem sampling_tail_no_free (chan : Int) (k : Nat) (raw : Nat) (p : Option Nat) :
    ∀ e ∈ List.replicate k (Event.adc1_get_raw chan) ++
        [Event.esp_adc_cal_raw_to_voltage raw p], e.is_free = false := by
  intro e he
  simp only [List.mem_append, List.mem_replicate, List.mem_singleton] at he
  rcases he with he | he
  · rw [he.2]; rfl
  · rw [he]; rfl

theorem sampling_tail_uses (chan : Int) (k : Nat) (raw : Nat) (p : Option Nat) (b : Nat) :
    ∀ e ∈ List.replicate k (Event.adc1_get_raw chan) ++
        [Event.esp_adc_cal_raw_to_voltage raw p], e.uses b = true → p = some b := by
  intro e he hu
  simp only [List.mem_append, List.mem_replicate, List.mem_singleton] at he
  rcases he with he | he
  · rw [he.2] at hu; simp [Event.uses] at hu
  · rw [he] at hu; simpa [Event.uses] using hu

/-- What one call does to the heap, from a state satisfying the invariant: a block it
frees is not used later in the call; the blocks it frees were live and are not live
afterwards; the blocks it uses were live before, or are the one it allocates. -/
theorem call_heap_discipline {Chars : Type} (v : Variant) (drv : Driver Chars)
    (env : Responses) (s : State Chars) (pin : Int) (a : adc_atten_t) (n : Int)
    (hinv : CacheInv v drv s) :
    released_for_good (analogReadMillivolts v drv env s pin a n).trace = true ∧
    (∀ b ∈ freed_blocks (analogReadMillivolts v drv env s pin a n).trace,
      s.heap_live b = true ∧
        (analogReadMillivolts v drv env s pin a n).state.heap_live b = false) ∧
    (∀ e ∈ (analogReadMillivolts v drv env s pin a n).trace, ∀ b, e.uses b = true →
      s.heap_live b = true ∨ b = s.heap_next) ∧
    s.heap_next ≤ (analogReadMillivolts v drv env s pin a n).state.heap_next ∧
    (∀ b, (analogReadMillivolts v drv env s pin a n).state.heap_live b = true →
      s.heap_live b = true ∨ b = s.heap_next) := by
  by_cases h : get_adc1_channel v pin = -1
  · rw [analogReadMillivolts_invalid v drv env s pin a n h]
    refine ⟨rfl, ?_, ?_, le_rfl, fun b hb => Or.inl hb⟩
    · intro b hb; simp [freed_blocks] at hb
    · intro e he b hu
      simp only [List.mem_singleton] at he
      rw [he] at hu; simp [Event.uses] at hu
  · by_cases herr : env.adc1_config_channel_atten = ESP_OK
    · rw [analogReadMillivolts_ok v drv env s pin a n h herr]
      simp only [acquire_raw_trace]
      cases hr : needs_refresh s (get_adc1_channel v pin) a
      · simp only [calibrate_no_refresh v drv s _ a hr, List.append_nil, List.append_assoc]
        have hi := ((needs_refresh_false_iff s _ a).1 hr).1
        obtain ⟨b0, hb0, _, hlive0, _⟩ := hinv.held _ hi
        have hnf := released_for_good_of_no_free _
          (sampling_tail_no_free (get_adc1_channel v pin) (if 1 < n then n.toNat else 1)
            (to_uint32 (acquire_raw env (get_adc1_channel v pin) n).1)
            (s.adc1_cal_data (get_adc1_channel v pin)).adc_chars)
        refine ⟨?_, ?_, ?_, le_rfl, fun b hb => Or.inl hb⟩
        · rw [released_for_good_append]
          refine ⟨rfl, hnf.2, ?_⟩
          intro b hb; simp [freed_blocks] at hb
        · intro b hb
          rw [freed_blocks_append, hnf.1] at hb
          simp [freed_blocks] at hb
        · intro e he b hu
          rw [List.mem_append] at he
          rcases he with he | he
          · simp only [List.mem_cons, List.mem_singleton, List.not_mem_nil, or_false] at he
            rcases he with he | he <;> rw [he] at hu <;> simp [Event.uses] at hu
          · have := sampling_tail_uses _ _ _ _ b e he hu
            rw [hb0] at this
            rw [← Option.some.inj this]
            exact Or.inl hlive0
      · simp only [calibrate_refresh_state v drv s _ a hr,
          calibrate_refresh_trace v drv s _ a hr, List.append_assoc, Function.update_same]
        have hnf := released_for_good_of_no_free _
          (sampling_tail_no_free (get_adc1_channel v pin) (if 1 < n then n.toNat else 1)
            (to_uint32 (acquire_raw env (get_adc1_channel v pin) n).1) (some s.heap_next))
        have hlive2 : ∀ b, Function.update (released_live s (get_adc1_channel v pin))
            s.heap_next true b = true → s.heap_live b = true ∨ b = s.heap_next := by
          intro b hb
          by_cases hbn : b = s.heap_next
          · exact Or.inr hbn
          · simp only [Function.update_apply, if_neg hbn] at hb
            exact Or.inl (released_live_le s _ b hb)
        cases hp : (s.adc1_cal_data (get_adc1_channel v pin)).adc_chars with
        | none =>
          have htr : ∀ tail : List Event,
              [Event.adc1_config_width (ADC_WIDTH v),
                Event.adc1_config_channel_atten (get_adc1_channel v pin) a] ++
                (([] : List Event) ++
                  ([Event.malloc s.heap_next,
                    Event.esp_adc_cal_characterize .ADC_UNIT_1 a (ADC_WIDTH v) 3300
                      (some s.heap_next)] ++ tail)) =
              [Event.adc1_config_width (ADC_WIDTH v),
                Event.adc1_config_channel_atten (get_adc1_channel v pin) a,
                Event.malloc s.heap_next,
                Event.esp_adc_cal_characterize .ADC_UNIT_1 a (ADC_WIDTH v) 3300
                  (some s.heap_next)] ++ tail := fun tail => by simp
          simp only [htr]
          refine ⟨?_, ?_, ?_, Nat.le_succ _, hlive2⟩
          · rw [released_for_good_append]
            refine ⟨rfl, hnf.2, ?_⟩
            intro b hb; simp [freed_blocks] at hb
          · intro b hb
            rw [freed_blocks_append, hnf.1] at hb
            simp [freed_blocks] at hb
          · intro e he b hu
            rw [List.mem_append] at he
            rcases he with he | he
            · simp only [List.mem_cons, List.mem_singleton, List.not_mem_nil, or_false] at he
              rcases he with he | he | he | he <;> rw [he] at hu <;>
                simp [Event.uses] at hu
              exact Or.inr hu.symm
            · have := sampling_tail_uses _ _ _ _ b e he hu
              exact Or.inr (Option.some.inj this).symm
        | some old =>
          obtain ⟨hlt, _, hliveold, _⟩ := hinv.lt_next hp
          have hne : old ≠ s.heap_next := Nat.ne_of_lt hlt
          have htr : ∀ tail : List Event,
              [Event.adc1_config_width (ADC_WIDTH v),
                Event.adc1_config_channel_atten (get_adc1_channel v pin) a] ++
                ([Event.free old] ++
                  ([Event.malloc s.heap_next,
                    Event.esp_adc_cal_characterize .ADC_UNIT_1 a (ADC_WIDTH v) 3300
                      (some s.heap_next)] ++ tail)) =
              [Event.adc1_config_width (ADC_WIDTH v),
                Event.adc1_config_channel_atten (get_adc1_channel v pin) a,
                Event.free old,
                Event.malloc s.heap_next,
                Event.esp_adc_cal_characterize .ADC_UNIT_1 a (ADC_WIDTH v) 3300
                  (some s.heap_next)] ++ tail := fun tail => by simp
          simp only [htr]
          have hpre : freed_blocks
              [Event.adc1_config_width (ADC_WIDTH v),
                Event.adc1_config_channel_atten (get_adc1_channel v pin) a,
                Event.free old,
                Event.malloc s.heap_next,
                Event.esp_adc_cal_characterize .ADC_UNIT_1 a (ADC_WIDTH v) 3300
                  (some s.heap_next)] = [old] := rfl
          refine ⟨?_, ?_, ?_, Nat.le_succ _, hlive2⟩
          · rw [released_for_good_append, hpre]
            refine ⟨?_, hnf.2, ?_⟩
            · simp [released_for_good, Event.uses, Ne.symm hne]
            · intro b hb e he
              rw [List.mem_singleton] at hb
              cases hu : e.uses b
              · rfl
              · have := sampling_tail_uses _ _ _ _ b e he hu
                rw [hb] at this
                exact absurd (Option.some.inj this).symm hne
          · intro b hb
            rw [freed_blocks_append, hnf.1, hpre] at hb
            simp only [List.append_nil, List.mem_singleton] at hb
            rw [hb]
            refine ⟨hliveold, ?_⟩
            simp only [Function.update_apply, if_neg hne]
            exact released_live_held s _ old hp
          · intro e he b hu
            rw [List.mem_append] at he
            rcases he with he | he
            · simp only [List.mem_cons, List.mem_singleton, List.not_mem_nil, or_false] at he
              rcases he with he | he | he | he | he <;> rw [he] at hu <;>
                simp [Event.uses] at hu
              · rw [← hu]; exact Or.inl hliveold
              · exact Or.inr hu.symm
            · have := sampling_tail_uses _ _ _ _ b e he hu
              exact Or.inr (Option.some.inj this).symm
    · rw [analogReadMillivolts_config_error v drv env s pin a n h herr]
      refine ⟨rfl, ?_, ?_, le_rfl, fun b hb => Or.inl hb⟩
      · intro b hb; simp [freed_blocks] at hb
      · intro e he b hu
        simp only [List.mem_cons, List.mem_singleton, List.not_mem_nil, or_false] at he
        rcases he with he | he | he <;> rw [he] at hu <;> simp [Event.uses] at hu

theorem run_heap_discipline {Chars : Type} (v : Variant) (drv : Driver Chars)
    (calls : List Call) (s : State Chars) (hinv : CacheInv v drv s) :
    released_for_good (run_trace v drv s calls) = true ∧
    (∀ e ∈ run_trace v drv s calls, ∀ b, e.uses b = true →
      s.heap_live b = true ∨ s.heap_next ≤ b) := by
  induction calls generalizing s with
  | nil =>
    refine ⟨rfl, ?_⟩
    intro e he
    simp [run_trace] at he
  | cons c cs ih =>
    obtain ⟨ha, hb, hc, hd, he⟩ :=
      call_heap_discipline v drv c.env s c.pin c.attenuation c.oversampling hinv
    obtain ⟨ih1, ih2⟩ :=
      ih _ (cacheInv_step v drv c.env s c.pin c.attenuation c.oversampling hinv)
    rw [run_trace]
    unfold Call.exec at *
    constructor
    · rw [released_for_good_append]
      refine ⟨ha, ih1, ?_⟩
      intro b hbf e hemem
      cases hu : e.uses b
      · rfl
      · rcases ih2 e hemem b hu with h1 | h1
        · rw [(hb b hbf).2] at h1
          exact absurd h1 (by simp)
        · have := (hinv.owned b (hb b hbf).1).1
          omega
    · intro e hemem b hu
      rw [List.mem_append] at hemem
      rcases hemem with hm | hm
      · rcases hc e hm b hu with h1 | h1
        · exact Or.inl h1
        · exact Or.inr (by omega)
      · rcases ih2 e hm b hu with h1 | h1
        · rcases he b h1 with h2 | h2
          · exact Or.inl h2
          · exact Or.inr (by omega)
        · exact Or.inr (by omega)

/-- C18: after any sequence of calls from the initial state, with `malloc` and `free`
recorded as events: a cache entry holds at most one block and no block is held by two
entries; an entry holds a live block if and only if it is initialized; every live block
is held by an entry (nothing leaks); the number of `malloc` calls equals the number of
`free` calls plus the number of initialized entries, all of which lie inside the array;
and once a block is freed it is not freed again, nor characterized, nor used for a
conversion by any later event, so the freed blocks are pairwise distinct. -/
theorem C18_no_leak_no_double_release {Chars : Type} (v : Variant) (drv : Driver Chars)
    (calls : List Call) :
    (∀ c b1 b2, ((run v drv (State.init Chars) calls).adc1_cal_data c).adc_chars = some b1 →
      ((run v drv (State.init Chars) calls).adc1_cal_data c).adc_chars = some b2 → b1 = b2) ∧
    (∀ c c2 b, ((run v drv (State.init Chars) calls).adc1_cal_data c).adc_chars = some b →
      ((run v drv (State.init Chars) calls).adc1_cal_data c2).adc_chars = some b → c = c2) ∧
    (∀ c, (run v drv (State.init Chars) calls).adc1_cal_initialized c = true ↔
      ∃ b, ((run v drv (State.init Chars) calls).adc1_cal_data c).adc_chars = some b ∧
        (run v drv (State.init Chars) calls).heap_live b = true) ∧
    (∀ b, (run v drv (State.init Chars) calls).heap_live b = true →
      ∃ c, ((run v drv (State.init Chars) calls).adc1_cal_data c).adc_chars = some b ∧
        (run v drv (State.init Chars) calls).adc1_cal_initialized c = true) ∧
    (run_trace v drv (State.init Chars) calls).countP Event.is_malloc =
      (run_trace v drv (State.init Chars) calls).countP Event.is_free +
        initialized_count v (run v drv (State.init Chars) calls) ∧
    (∀ c, (run v drv (State.init Chars) calls).adc1_cal_initialized c = true →
      0 ≤ c ∧ c < (ADC1_CHANNEL_COUNT v : Int)) ∧
    released_for_good (run_trace v drv (State.init Chars) calls) = true ∧
    (freed_blocks (run_trace v drv (State.init Chars) calls)).Nodup := by
  have hinv := cacheInv_run v drv calls _ (cacheInv_init v drv)
  have hdisc := run_heap_discipline v drv calls _ (cacheInv_init v drv)
  have hbal := run_balance v drv calls _ (cacheInv_init v drv)
  have hzero : initialized_count v (State.init Chars) = 0 := by
    simp [initialized_count, State.init]
  rw [hzero, Nat.add_zero] at hbal
  refine ⟨?_, hinv.inj, ?_, ?_, hbal, ?_, hdisc.1, freed_blocks_nodup _ hdisc.1⟩
  · intro c b1 b2 h1 h2
    rw [h1] at h2
    exact Option.some.inj h2
  · intro c
    constructor
    · intro hi
      obtain ⟨b, hb, _, hlive, _⟩ := hinv.held c hi
      exact ⟨b, hb, hlive⟩
    · rintro ⟨b, hb, _⟩
      exact (hinv.lt_next hb).2.1
  · intro b hb
    obtain ⟨_, c, hc⟩ := hinv.owned b hb
    exact ⟨c, hc, (hinv.lt_next hc).2.1⟩
  · exact initialized_in_range_run v drv calls _ (fun c hc => by simp [State.init] at hc)

/-! ## C19: channel isolation -/

theorem get_adc1_channel_of_valid (v : Variant) (p : Int) (h : valid_pin v p) :
    get_adc1_channel v p =
      match v with
      | .esp32_c3 => p
      | .esp32_s2 => p - 3 := by
  cases v <;> simp only [valid_pin] at h <;> simp only [get_adc1_channel] <;>
    split_ifs <;> omega

theorem calibrate_deref_other {Chars : Type} (v : Variant) (drv : Driver Chars)
    (s : State Chars) (chan c : Int) (a : adc_atten_t) (hinv : CacheInv v drv s)
    (hc : c ≠ chan) :
    (calibrate v drv s chan a).1.deref ((calibrate v drv s chan a).1.adc1_cal_data c).adc_chars =
      s.deref (s.adc1_cal_data c).adc_chars := by
  rw [(calibrate_other v drv s chan c a hc).1]
  cases hr : needs_refresh s chan a
  · rw [calibrate_no_refresh v drv s chan a hr]
  · rw [calibrate_refresh_state v drv s chan a hr]
    cases hp : (s.adc1_cal_data c).adc_chars with
    | none => rfl
    | some b =>
      have hne : b ≠ s.heap_next := Nat.ne_of_lt (hinv.lt_next hp).1
      have hother : (s.adc1_cal_data chan).adc_chars ≠ some b :=
        fun e => hc (hinv.inj c chan b hp e)
      simp only [State.deref, Function.update_apply, if_neg hne,
        released_live_other s chan b hother]

/-- C19: `get_adc1_channel` maps distinct valid pins to distinct channels, and a call of
`analogReadMillivolts` on a pin leaves the cache entry (pointer, stored attenuation,
flag) of every channel other than the one the pin resolves to exactly as it was,
whatever the attenuation, the oversampling value, the driver answers and the outcome.
In a reachable state the block such an entry points to stays live with the same
contents, so the calibration of every other valid pin is untouched. -/
theorem C19_channel_isolation {Chars : Type} (v : Variant) (drv : Driver Chars)
    (env : Responses) (s : State Chars) (pin : Int) (a : adc_atten_t) (n : Int) :
    (∀ p q : Int, valid_pin v p → valid_pin v q →
      get_adc1_channel v p = get_adc1_channel v q → p = q) ∧
    (∀ c : Int, c ≠ get_adc1_channel v pin →
      (analogReadMillivolts v drv env s pin a n).state.adc1_cal_data c = s.adc1_cal_data c ∧
      (analogReadMillivolts v drv env s pin a n).state.adc1_cal_initialized c =
        s.adc1_cal_initialized c) ∧
    (Reachable v drv s → ∀ c : Int, c ≠ get_adc1_channel v pin →
      (analogReadMillivolts v drv env s pin a n).state.deref
          ((analogReadMillivolts v drv env s pin a n).state.adc1_cal_data c).adc_chars =
        s.deref (s.adc1_cal_data c).adc_chars) ∧
    (∀ q : Int, valid_pin v q → q ≠ pin →
      (analogReadMillivolts v drv env s pin a n).state.adc1_cal_data
          (get_adc1_channel v q) = s.adc1_cal_data (get_adc1_channel v q) ∧
      (analogReadMillivolts v drv env s pin a n).state.adc1_cal_initialized
          (get_adc1_channel v q) = s.adc1_cal_initialized (get_adc1_channel v q)) := by
  have hinj : ∀ p q : Int, valid_pin v p → valid_pin v q →
      get_adc1_channel v p = get_adc1_channel v q → p = q := by
    intro p q hp hq
    have hp2 := get_adc1_channel_of_valid v p hp
    have hq2 := get_adc1_channel_of_valid v q hq
    intro e
    rw [hp2, hq2] at e
    cases v <;> simp only at e <;> omega
  have hframe : ∀ c : Int, c ≠ get_adc1_channel v pin →
      (analogReadMillivolts v drv env s pin a n).state.adc1_cal_data c = s.adc1_cal_data c ∧
      (analogReadMillivolts v drv env s pin a n).state.adc1_cal_initialized c =
        s.adc1_cal_initialized c := by
    intro c hc
    rw [analogReadMillivolts_state]
    split_ifs
    · exact calibrate_other v drv s _ c a hc
    · exact ⟨rfl, rfl⟩
  refine ⟨hinj, hframe, ?_, ?_⟩
  · intro hreach c hc
    rw [analogReadMillivolts_state]
    split_ifs
    · exact calibrate_deref_other v drv s _ c a (cacheInv_of_reachable hreach) hc
    · rfl
  · intro q hq hne
    apply hframe
    intro e
    by_cases hpin : valid_pin v pin
    · exact hne (hinj q pin hq hpin e)
    · rw [(get_adc1_channel_eq_neg_one_iff v pin).2 hpin] at e
      exact get_adc1_channel_ne_of_valid hq e

/-- Witness of C19: on the C3, after a read of pin 1 at 6 dB, a read of pin 0 leaves the
entry of channel 1 as it was. -/
theorem C19_channel_isolation_witness :
    (analogReadMillivolts .esp32_c3 atten_driver scripted_ok
        (run .esp32_c3 atten_driver (State.init adc_atten_t) [read_pin1_db6]) 0
        .ADC_ATTEN_DB_11 4).state.adc1_cal_data (get_adc1_channel .esp32_c3 1) =
      (run .esp32_c3 atten_driver (State.init adc_atten_t) [read_pin1_db6]).adc1_cal_data
        (get_adc1_channel .esp32_c3 1) :=
  ((C19_channel_isolation .esp32_c3 atten_driver scripted_ok
    (run .esp32_c3 atten_driver (State.init adc_atten_t) [read_pin1_db6]) 0
    .ADC_ATTEN_DB_11 4).2.2.2 1 (by decide) (by decide)).1

end AnalogReadMillis
